import Mathlib

/-!
Shallow embedding of the versioned page repository in
`pageserver/src/buffered_repository.rs` (the `BufferedRepository` /
`BufferedTimeline` implementation), together with proofs about the claims
of the specification.

Conventions of the embedding:
* machine integers (`u32`, `u64`) are `Nat`; where the source relies on a
  bound it appears as an explicit hypothesis or an explicit `% 2^w`;
  LSNs (`Lsn`, a `u64` record position) are likewise plain `Nat`s;
* byte strings (`Bytes` in the source) are `List Nat` with each element
  `< 256` where that matters;
* the ordered KV engine (`ToastStore`, external to the repository crate)
  is a finite map from typed `StoreKey`s to raw byte lists; the byte
  encoding of keys is required by the spec (section 3) to preserve the
  componentwise lexicographic order, so range scans are modelled as
  typed maximum-selection over the corresponding key component ranges;
* values are kept as raw bytes and run through the executable
  serialization (`ser`) / deserialization (`des`) functions, mirroring
  `zenith_utils::bin_ser::BeSer` (big-endian, strict `des`, prefix-only
  `des_prefix`), so that any mismatch between what a writer stores and
  what a reader parses is visible;
* fallible code returns `Except String`; a Rust `panic!`/`assert!` on a
  path a claim exercises is modelled as an error and noted in place.
-/

/-- Byte strings: lists of naturals, each `< 256` where relevant. -/
abbrev Bytes := List Nat

/-- `Lsn::MAX` (`u64::MAX`). -/
def LsnMAX : Nat := 2 ^ 64 - 1

/-- `Lsn::is_aligned`: LSNs sit on 8-byte record boundaries. -/
def Lsn.is_aligned (lsn : Nat) : Bool := lsn % 8 == 0

/-- Relation identifier (`RelTag`): tablespace, database, relation, fork. -/
structure RelTag where
  spcnode : Nat
  dbnode : Nat
  relnode : Nat
  forknum : Nat
deriving DecidableEq, Repr

/-- Modelled from the spec: `RelishTag` (`relish.rs` is not part of the
source tree). Section 3: an algebraic identifier of a relation fork or a
non-relational physical object (checkpoint blob, SLRU segment, ...),
totally ordered; relations and SLRU segments are "blocky", singleton
blobs are not. The declaration order fixes the total order; `Checkpoint`
is placed last, matching the use of `Metadata(Checkpoint, Lsn::MAX)` as
an upper bound for all metadata keys in the source. -/
inductive RelishTag where
  | Relation (rel : RelTag)
  | Slru (slru : Nat) (segno : Nat)
  | ControlFile
  | Checkpoint
deriving DecidableEq, Repr

/-- Modelled from the spec: which entities are indexable by block number. -/
def RelishTag.is_blocky : RelishTag → Bool
  | .Relation _ => true
  | .Slru _ _ => true
  | .ControlFile => false
  | .Checkpoint => false

/-- Modelled from the spec: a decoded WAL record (`WALRecord` lives in
`repository.rs`, not part of the source tree). Section 3:
`Delta(WALRecord { lsn, will_init : bool, payload })`; the payload field
is named `rec` in the source (`rec.rec`), renamed `payload` here because
`rec` is reserved for the recursor. -/
structure WALRecord where
  lsn : Nat
  will_init : Bool
  payload : Bytes
deriving DecidableEq, Repr

/-- Key used for relish blocks (`DataKey`). -/
structure DataKey where
  rel : RelishTag
  blknum : Nat
  lsn : Nat
deriving DecidableEq, Repr

/-- Relish metadata key (`MetadataKey`). -/
structure MetadataKey where
  rel : RelishTag
  lsn : Nat
deriving DecidableEq, Repr

/-- All entries in KV storage use this key (`StoreKey`); the `Metadata`
variant serializes (and therefore sorts) before the `Data` variant. -/
inductive StoreKey where
  | Metadata (mk : MetadataKey)
  | Data (dk : DataKey)
deriving DecidableEq, Repr

/-- Value associated with `MetadataKey`: `size = none` marks a dropped
relation (tombstone). -/
structure MetadataValue where
  size : Option Nat
deriving DecidableEq, Repr

/-- A page version: a full 8 KiB image, or a WAL record to get from the
previous page version to this one. -/
inductive PageVersion where
  | Image (img : Bytes)
  | Delta (rec : WALRecord)
deriving DecidableEq, Repr

/-! ### Serialization (`zenith_utils::bin_ser::BeSer`)

Modelled from the spec: big-endian fixed-width integers, a `u32`
discriminant for enums, one tag byte for `Option`, and a `u64` length
prefix for byte strings. `des` is strict (the whole input must be
consumed); `des_prefix` ignores trailing bytes (the source uses it only
for the padded metadata file). -/

/-- Big-endian encoding of a `u32`. -/
def u32be (n : Nat) : Bytes :=
  [n / 2 ^ 24 % 256, n / 2 ^ 16 % 256, n / 2 ^ 8 % 256, n % 256]

/-- Big-endian encoding of a `u64`. -/
def u64be (n : Nat) : Bytes :=
  [n / 2 ^ 56 % 256, n / 2 ^ 48 % 256, n / 2 ^ 40 % 256, n / 2 ^ 32 % 256,
   n / 2 ^ 24 % 256, n / 2 ^ 16 % 256, n / 2 ^ 8 % 256, n % 256]

/-- Big-endian encoding of a `u128` (used for 16-byte timeline ids). -/
def u128be (n : Nat) : Bytes :=
  u64be (n / 2 ^ 64) ++ u64be (n % 2 ^ 64)

/-- Little-endian encoding of a `u32` (`u32::to_le_bytes`, used only for
the metadata file checksum). -/
def u32le (n : Nat) : Bytes :=
  [n % 256, n / 2 ^ 8 % 256, n / 2 ^ 16 % 256, n / 2 ^ 24 % 256]

/-- Length-prefixed byte-string encoding. -/
def serBytes (b : Bytes) : Bytes := u64be b.length ++ b

/-- Read a big-endian `u32` from the front of a byte list. -/
def readU32 : Bytes → Option (Nat × Bytes)
  | b0 :: b1 :: b2 :: b3 :: rest =>
    some (b0 * 2 ^ 24 + b1 * 2 ^ 16 + b2 * 2 ^ 8 + b3, rest)
  | _ => none

/-- Read a big-endian `u64` from the front of a byte list. -/
def readU64 : Bytes → Option (Nat × Bytes)
  | b0 :: b1 :: b2 :: b3 :: b4 :: b5 :: b6 :: b7 :: rest =>
    some (b0 * 2 ^ 56 + b1 * 2 ^ 48 + b2 * 2 ^ 40 + b3 * 2 ^ 32
      + b4 * 2 ^ 24 + b5 * 2 ^ 16 + b6 * 2 ^ 8 + b7, rest)
  | _ => none

/-- Read a big-endian `u128` from the front of a byte list. -/
def readU128 (b : Bytes) : Option (Nat × Bytes) :=
  match readU64 b with
  | none => none
  | some (hi, r) =>
    match readU64 r with
    | none => none
    | some (lo, rest) => some (hi * 2 ^ 64 + lo, rest)

/-- Read a length-prefixed byte string from the front of a byte list. -/
def readBytes (b : Bytes) : Option (Bytes × Bytes) :=
  match readU64 b with
  | none => none
  | some (n, r) => if n ≤ r.length then some (r.take n, r.drop n) else none

/-- Read a one-byte boolean. -/
def readBool : Bytes → Option (Bool × Bytes)
  | 0 :: rest => some (false, rest)
  | 1 :: rest => some (true, rest)
  | _ => none

/-- Serialization of a `WALRecord` value. -/
def WALRecord.ser (r : WALRecord) : Bytes :=
  u64be r.lsn ++ [if r.will_init then 1 else 0] ++ serBytes r.payload

/-- Serialization of a `PageVersion` value (enum discriminant, then the
variant payload). -/
def PageVersion.ser : PageVersion → Bytes
  | .Image img => u32be 0 ++ serBytes img
  | .Delta rec => u32be 1 ++ rec.ser

/-- Strict deserialization of a `PageVersion` value. -/
def PageVersion.des (b : Bytes) : Option PageVersion :=
  match readU32 b with
  | some (0, r) =>
    match readBytes r with
    | some (img, rest) => if rest = [] then some (.Image img) else none
    | none => none
  | some (1, r) =>
    match readU64 r with
    | some (l, r1) =>
      match readBool r1 with
      | some (wi, r2) =>
        match readBytes r2 with
        | some (payload, rest) =>
          if rest = [] then some (.Delta ⟨l, wi, payload⟩) else none
        | none => none
      | none => none
    | none => none
  | _ => none

/-- Serialization of a `MetadataValue`. -/
def MetadataValue.ser (v : MetadataValue) : Bytes :=
  match v.size with
  | none => [0]
  | some n => 1 :: u32be n

/-- Strict deserialization of a `MetadataValue`. -/
def MetadataValue.des (b : Bytes) : Option MetadataValue :=
  match b with
  | 0 :: rest => if rest = [] then some ⟨none⟩ else none
  | 1 :: rest =>
    match readU32 rest with
    | some (n, r) => if r = [] then some ⟨some n⟩ else none
    | none => none
  | _ => none

/-- Byte encoding of a `RelishTag` (enum discriminant, then the fields). -/
def RelishTag.serTag : RelishTag → Bytes
  | .Relation rt =>
    u32be 0 ++ u32be rt.spcnode ++ u32be rt.dbnode ++ u32be rt.relnode
      ++ [rt.forknum % 256]
  | .Slru slru segno => u32be 1 ++ u32be slru ++ u32be segno
  | .ControlFile => u32be 2
  | .Checkpoint => u32be 3

/-- Byte encoding of a `StoreKey` (what `StoreKey::ser` produces; needed
because `RelishStore::load_metadata` feeds the key bytes to
`MetadataValue::des`). -/
def StoreKey.serKey : StoreKey → Bytes
  | .Metadata mk => u32be 0 ++ mk.rel.serTag ++ u64be mk.lsn
  | .Data dk => u32be 1 ++ dk.rel.serTag ++ u32be dk.blknum ++ u64be dk.lsn

/-! ### Orders on keys

The spec (section 3) requires the byte encoding of keys to preserve the
lexicographic order `entity < block < lsn` (with `Metadata` sorting before
`Data` because of the smaller discriminant); range scans are therefore
expressed directly on the key components. -/

/-- Constructor index of a `RelishTag` (its serialization discriminant). -/
def RelishTag.idx : RelishTag → Nat
  | .Relation _ => 0
  | .Slru _ _ => 1
  | .ControlFile => 2
  | .Checkpoint => 3

/-- Lexicographic strict order on `RelTag` fields. -/
def RelTag.ltTag (a b : RelTag) : Bool :=
  decide (a.spcnode < b.spcnode) ||
    (decide (a.spcnode = b.spcnode) && (decide (a.dbnode < b.dbnode) ||
      (decide (a.dbnode = b.dbnode) && (decide (a.relnode < b.relnode) ||
        (decide (a.relnode = b.relnode) && decide (a.forknum < b.forknum))))))

/-- Strict order on `RelishTag` induced by the byte encoding. -/
def relishLt (a b : RelishTag) : Bool :=
  decide (a.idx < b.idx) ||
    (decide (a.idx = b.idx) &&
      match a, b with
      | .Relation x, .Relation y => RelTag.ltTag x y
      | .Slru s1 g1, .Slru s2 g2 =>
        decide (s1 < s2) || (decide (s1 = s2) && decide (g1 < g2))
      | _, _ => false)

/-- Strict order on `DataKey`s induced by the byte encoding. -/
def dataKeyLt (a b : DataKey) : Bool :=
  relishLt a.rel b.rel ||
    (decide (a.rel = b.rel) && (decide (a.blknum < b.blknum) ||
      (decide (a.blknum = b.blknum) && decide (a.lsn < b.lsn))))

/-- Strict order on `MetadataKey`s induced by the byte encoding. -/
def metaKeyLt (a b : MetadataKey) : Bool :=
  relishLt a.rel b.rel || (decide (a.rel = b.rel) && decide (a.lsn < b.lsn))

/-! ### The versioned store

`ToastStore` (external, section 4.1 of the spec) is an ordered byte-keyed
KV engine with `put` (insert or overwrite) and bidirectional range
cursors; all algorithms use only `iter.next_back()`, i.e. selection of
the greatest key within a range. -/

/-- The store: a finite map from keys to raw value bytes, as an
association list. `putKV` keeps keys unique. -/
abbrev Store := List (StoreKey × Bytes)

/-- `put`: insert or overwrite the value at a key. -/
def putKV (s : Store) (k : StoreKey) (v : Bytes) : Store :=
  (k, v) :: s.filter (fun p => ¬(p.1 = k))

/-- Lookup the value bytes stored at a key. -/
def rowLookup (s : Store) (k : StoreKey) : Option Bytes :=
  (s.find? (fun p => p.1 = k)).map (·.2)

/-- `iter.next_back()` over the data range
`Data(rel, blknum, 0) ..= Data(rel, blknum, hi)`: the greatest stored LSN
`≤ hi` for this block, with its value bytes. Ties (impossible for stores
built with `putKV`) resolve to the earliest entry, matching `rowLookup`. -/
def nextBackData : Store → RelishTag → Nat → Nat → Option (Nat × Bytes)
  | [], _, _, _ => none
  | (k, v) :: rest, rel, blknum, hi =>
    let r := nextBackData rest rel blknum hi
    match k with
    | .Data dk =>
      if dk.rel = rel ∧ dk.blknum = blknum ∧ dk.lsn ≤ hi then
        match r with
        | none => some (dk.lsn, v)
        | some (m, w) => if m > dk.lsn then some (m, w) else some (dk.lsn, v)
      else r
    | .Metadata _ => r

/-- `iter.next_back()` over the metadata range
`Metadata(rel, 0) ..= Metadata(rel, hi)`. -/
def nextBackMeta : Store → RelishTag → Nat → Option (Nat × Bytes)
  | [], _, _ => none
  | (k, v) :: rest, rel, hi =>
    let r := nextBackMeta rest rel hi
    match k with
    | .Metadata mk =>
      if mk.rel = rel ∧ mk.lsn ≤ hi then
        match r with
        | none => some (mk.lsn, v)
        | some (m, w) => if m > mk.lsn then some (m, w) else some (mk.lsn, v)
      else r
    | .Data _ => r

/-- `iter.next_back()` over all metadata keys strictly below `ub` (used by
`RelishStore::load_metadata`, whose upper bound is
`Metadata(Checkpoint, Lsn::MAX)` exclusive). -/
def nextBackMetaBelow : Store → MetadataKey → Option (MetadataKey × Bytes)
  | [], _ => none
  | (k, v) :: rest, ub =>
    let r := nextBackMetaBelow rest ub
    match k with
    | .Metadata mk =>
      if metaKeyLt mk ub then
        match r with
        | none => some (mk, v)
        | some (m, w) => if metaKeyLt mk m then some (m, w) else some (mk, v)
      else r
    | .Data _ => r

/-- `iter.next_back()` over the data-key range `[lb, ub)` in full key
order (used by `checkpoint_internal`, whose chains may cross block
boundaries). -/
def nextBackDataRange : Store → DataKey → DataKey → Option (DataKey × Bytes)
  | [], _, _ => none
  | (k, v) :: rest, lb, ub =>
    let r := nextBackDataRange rest lb ub
    match k with
    | .Data dk =>
      if dataKeyLt dk lb = false ∧ dataKeyLt dk ub = true then
        match r with
        | none => some (dk, v)
        | some (m, w) => if dataKeyLt dk m then some (m, w) else some (dk, v)
      else r
    | .Metadata _ => r

/-! ### Timeline state (`BufferedTimeline`)

Concurrency-free shallow embedding: the `RwLock`/`Mutex`-protected fields
become plain fields, the atomics become `Nat`s, and each writer method is
a function from the state to a result together with the successor state
(mutations that happened before a failure persist, as in the source).
The ancestor link is kept as the ancestor timeline id plus the branch
LSN, exactly the data of the on-disk metadata; no read path of this
source dereferences the ancestor object (the cross-timeline fallback is
an acknowledged hole, `FIXME-KK`). -/

/-- In-memory cache entry for the most recent metadata value of a relish
(`MetadataSnapshot`). -/
structure MetadataSnapshot where
  size : Nat
  lsn : Nat
deriving DecidableEq, Repr

/-- The lazily loaded metadata snapshot cache (`HashMap<RelishTag,
MetadataSnapshot>`), as an association list with unique keys. -/
abbrev MetaCache := List (RelishTag × MetadataSnapshot)

/-- Insert or overwrite a snapshot-cache entry. -/
def insertCache (c : MetaCache) (rel : RelishTag) (snap : MetadataSnapshot) :
    MetaCache :=
  (rel, snap) :: c.filter (fun p => ¬(p.1 = rel))

/-- Remove a snapshot-cache entry. -/
def eraseCache (c : MetaCache) (rel : RelishTag) : MetaCache :=
  c.filter (fun p => ¬(p.1 = rel))

/-- Find a snapshot-cache entry. -/
def cacheFind (c : MetaCache) (rel : RelishTag) : Option MetadataSnapshot :=
  (c.find? (fun p => p.1 = rel)).map (·.2)

/-- The state of one `BufferedTimeline`. -/
structure BTimeline where
  data : Store
  meta : Option MetaCache
  lastRecordLsn : Nat
  prevRecordLsn : Nat
  diskConsistentLsn : Nat
  ancestorTimeline : Option Nat
  ancestorLsn : Nat
deriving DecidableEq, Repr

/-- The WAL-redo collaborator (`WalRedoManager::request_redo`), a black
box: `(rel, blknum, request_lsn, base_image?, records)` to page bytes. -/
abbrev RedoFn :=
  RelishTag → Nat → Nat → Option Bytes → List (Nat × WALRecord) →
    Except String Bytes

/-- The data collected for one page reconstruction
(`PageReconstructData`): the records to apply (newest first, as pushed),
and the base image if one was found. -/
structure PageReconstructData where
  records : List (Nat × WALRecord)
  page_img : Option Bytes

/-- `ZERO_PAGE`: an all-zeros 8 KiB page. -/
def ZERO_PAGE : Bytes := List.replicate 8192 0

/-- `reconstruct_page`: apply the collected WAL records to the base
image.  Both "no data at all" and "no base before a non-init record"
produce a zeroed page with only a warning in the source (the `FIXME:
this ought to be an error?` branches). -/
def reconstruct_page (redo : RedoFn) (rel : RelishTag) (blknum : Nat)
    (request_lsn : Nat) (data : PageReconstructData) : Except String Bytes :=
  let records := data.records.reverse
  match records with
  | [] =>
    match data.page_img with
    | some img => .ok img
    | none => .ok ZERO_PAGE
  | r :: _ =>
    if data.page_img = none ∧ ¬(r.2.will_init = true) then .ok ZERO_PAGE
    else redo rel blknum request_lsn data.page_img records

/-- `nextBackData` only returns LSNs inside the scanned range. -/
theorem nextBackData_le {s : Store} {rel : RelishTag} {blknum : Nat}
    {hi : Nat} {m : Nat} {v : Bytes}
    (h : nextBackData s rel blknum hi = some (m, v)) : m ≤ hi := by
  induction s with
  | nil => simp [nextBackData] at h
  | cons p rest ih =>
    obtain ⟨k, v'⟩ := p
    cases k with
    | Metadata mk' => exact ih (by simpa [nextBackData] using h)
    | Data dk =>
      simp only [nextBackData] at h
      split at h
      · rename_i hg
        split at h
        · cases h
          exact hg.2.2
        · rename_i m' w hr
          split at h
          · cases h
            exact ih hr
          · cases h
            exact hg.2.2
      · exact ih h

/-- The inner loop of `get_page_at_lsn`: continue stepping the reverse
iterator through the same `(rel, blknum)` range until an `Image` or a
`will_init` record terminates the chain.  `hi = none` means the iterator
is exhausted.  The source's `assert!(dk.rel == rel)` cannot fire here
because the scanned range never leaves `(rel, blknum)`.  Each iteration
consumes a distinct store entry, so the loop is bounded by the store
size; `fuel` carries that bound (`nextBackData_le` shows the iterator
position strictly decreases, so the fuel branch is never taken when the
loop starts with more fuel than entries). -/
def collectChain (s : Store) (rel : RelishTag) (blknum : Nat) :
    Bool → List (Nat × WALRecord) → Option Nat → Nat →
      Except String PageReconstructData
  | true, records, _, _ => .ok ⟨records, none⟩
  | false, _, none, _ => .error "base image not found"
  | false, _, some _, 0 => .error "fuel exhausted"
  | false, records, some h, fuel + 1 =>
    match nextBackData s rel blknum h with
    | none => .error "base image not found"
    | some (m, v) =>
      match PageVersion.des v with
      | none => .error "deserialization failed"
      | some (.Image img) => .ok ⟨records, some img⟩
      | some (.Delta rec2) =>
        collectChain s rel blknum rec2.will_init
          (records ++ [(m, rec2)]) (if m = 0 then none else some (m - 1)) fuel

/-- `get_page_at_lsn`: locate the latest version with LSN at most the
requested one and materialize it. -/
def get_page_at_lsn (redo : RedoFn) (tl : BTimeline) (rel : RelishTag)
    (blknum : Nat) (lsn : Nat) : Except String Bytes :=
  if ¬(rel.is_blocky = true) ∧ ¬(blknum = 0) then
    .error "invalid request for block for non-blocky relish"
  else
    match nextBackData tl.data rel blknum lsn with
    | none => .error "relish not found"
    | some (m, v) =>
      match PageVersion.des v with
      | none => .error "deserialization failed"
      | some (.Image img) => .ok img
      | some (.Delta rec) =>
        match collectChain tl.data rel blknum rec.will_init
            [(lsn, rec)] (if m = 0 then none else some (m - 1))
            (tl.data.length + 1) with
        | .error e => .error e
        | .ok data => reconstruct_page redo rel blknum lsn data

/-- `get_relish_size`: serve from the snapshot cache when its LSN is not
newer than the request, otherwise reverse-scan the metadata keys. -/
def get_relish_size (tl : BTimeline) (rel : RelishTag) (lsn : Nat) :
    Except String (Option Nat) :=
  if ¬(rel.is_blocky = true) then
    .error "invalid get_relish_size request for non-blocky relish"
  else
    let scan : Except String (Option Nat) :=
      match nextBackMeta tl.data rel lsn with
      | none => .ok none
      | some (_, v) =>
        match MetadataValue.des v with
        | none => .error "deserialization failed"
        | some mv => .ok mv.size
    match tl.meta with
    | some hash =>
      match cacheFind hash rel with
      | some snap => if snap.lsn ≤ lsn then .ok (some snap.size) else scan
      | none => scan
    | none => scan

/-- `get_rel_exists`: a relish exists iff its size is not a tombstone. -/
def get_rel_exists (tl : BTimeline) (rel : RelishTag) (lsn : Nat) :
    Except String Bool :=
  (get_relish_size tl rel lsn).map (·.isSome)

/-! ### The snapshot-cache loader (`RelishStore::load_metadata`)

The loop walks metadata keys newest-rel-first under the exclusive upper
bound `Metadata(Checkpoint, Lsn::MAX)`, jumping below `(rel, 0)` after
each relish.  Note the source reads the metadata VALUE from `pair.0`
(the KEY bytes) — `MetadataValue::des(&pair.0)` — so whenever at least
one metadata row exists the strict `des` fails and the loader errors
(spec section 9, open question 2).  The loop is bounded by the number of
distinct relishes, hence by the store size; `fuel` carries that bound. -/

/-- One pass of the `RelishStore::load_metadata` loop. -/
def loadMetadataLoop (s : Store) : MetadataKey → Nat → MetaCache →
    Except String MetaCache
  | _, 0, _ => .error "fuel exhausted"
  | ub, fuel + 1, acc =>
    match nextBackMetaBelow s ub with
    | none => .ok acc
    | some (mk, _v) =>
      match MetadataValue.des (StoreKey.serKey (.Metadata mk)) with
      | none => .error "deserialization failed"
      | some mv =>
        let acc' :=
          match mv.size with
          | some sz => insertCache acc mk.rel ⟨sz, mk.lsn⟩
          | none => acc
        loadMetadataLoop s ⟨mk.rel, 0⟩ fuel acc'

/-- `RelishStore::load_metadata`: populate the snapshot cache on first
use; a no-op when it is already loaded. -/
def load_metadata_cache (tl : BTimeline) : Except String MetaCache :=
  match tl.meta with
  | some c => .ok c
  | none =>
    loadMetadataLoop tl.data ⟨RelishTag.Checkpoint, LsnMAX⟩
      (tl.data.length + 1) []

/-! ### Writer operations (`BufferedTimelineWriter`)

Each operation returns its `Result` together with the successor state;
mutations performed before a failure persist, as they do in the source
(the writer mutates the store in place and then propagates the error). -/

/-- `put_wal_record`: insert a `Delta` version; extend the relish size
metadata when the block number reaches past the cached size. -/
def put_wal_record (tl : BTimeline) (lsn : Nat) (rel : RelishTag)
    (blknum : Nat) (r : WALRecord) : Except String Unit × BTimeline :=
  if ¬(rel.is_blocky = true) ∧ ¬(blknum = 0) then
    (.error "invalid request for block for non-blocky relish", tl)
  else if ¬(Lsn.is_aligned lsn = true) then
    (.error "unaligned record LSN", tl)
  else
    let data1 := putKV tl.data (.Data ⟨rel, blknum, lsn⟩)
      (PageVersion.ser (.Delta r))
    let tl1 := { tl with data := data1 }
    match load_metadata_cache tl1 with
    | .error e => (.error e, tl1)
    | .ok cache =>
      if ((cacheFind cache rel).map (·.size)).getD 0 ≤ blknum then
        let cache2 := insertCache cache rel ⟨blknum + 1, lsn⟩
        let data2 := putKV tl1.data (.Metadata ⟨rel, lsn⟩)
          (MetadataValue.ser ⟨some (blknum + 1)⟩)
        (.ok (),
          { tl1 with
              data := data2
              meta := some cache2
              diskConsistentLsn := lsn })
      else
        (.ok (),
          { tl1 with
              meta := some cache
              diskConsistentLsn := lsn })

/-- `put_page_image`: insert an `Image` version; same size-extension side
effect as `put_wal_record`. -/
def put_page_image (tl : BTimeline) (rel : RelishTag) (blknum : Nat)
    (lsn : Nat) (img : Bytes) : Except String Unit × BTimeline :=
  if ¬(rel.is_blocky = true) ∧ ¬(blknum = 0) then
    (.error "invalid request for block for non-blocky relish", tl)
  else if ¬(Lsn.is_aligned lsn = true) then
    (.error "unaligned record LSN", tl)
  else
    let data1 := putKV tl.data (.Data ⟨rel, blknum, lsn⟩)
      (PageVersion.ser (.Image img))
    let tl1 := { tl with data := data1 }
    match load_metadata_cache tl1 with
    | .error e => (.error e, tl1)
    | .ok cache =>
      if ((cacheFind cache rel).map (·.size)).getD 0 ≤ blknum then
        let cache2 := insertCache cache rel ⟨blknum + 1, lsn⟩
        let data2 := putKV tl1.data (.Metadata ⟨rel, lsn⟩)
          (MetadataValue.ser ⟨some (blknum + 1)⟩)
        (.ok (),
          { tl1 with
              data := data2
              meta := some cache2
              diskConsistentLsn := lsn })
      else
        (.ok (),
          { tl1 with
              meta := some cache
              diskConsistentLsn := lsn })

/-- `put_truncation`: record a new relish size. -/
def put_truncation (tl : BTimeline) (rel : RelishTag) (lsn : Nat)
    (relsize : Nat) : Except String Unit × BTimeline :=
  if ¬(rel.is_blocky = true) then
    (.error "invalid truncation for non-blocky relish", tl)
  else if ¬(Lsn.is_aligned lsn = true) then
    (.error "unaligned record LSN", tl)
  else
    match load_metadata_cache tl with
    | .error e => (.error e, tl)
    | .ok cache =>
      let cache2 := insertCache cache rel ⟨relsize, lsn⟩
      let data2 := putKV tl.data (.Metadata ⟨rel, lsn⟩)
        (MetadataValue.ser ⟨some relsize⟩)
      (.ok (),
        { tl with
            data := data2
            meta := some cache2
            diskConsistentLsn := lsn })

/-- `drop_relish`: insert a tombstone and evict the snapshot-cache
entry.  Note: unlike the other writer operations, the source performs no
blocky check and no LSN alignment check here. -/
def drop_relish (tl : BTimeline) (rel : RelishTag) (lsn : Nat) :
    Except String Unit × BTimeline :=
  match load_metadata_cache tl with
  | .error e => (.error e, tl)
  | .ok cache =>
    let cache2 := eraseCache cache rel
    let data2 := putKV tl.data (.Metadata ⟨rel, lsn⟩)
      (MetadataValue.ser ⟨none⟩)
    (.ok (),
      { tl with
          data := data2
          meta := some cache2
          diskConsistentLsn := lsn })

/-- `advance_last_record_lsn`: bump the LSN gate.  The source asserts
`new_lsn.is_aligned()` (a panic, never exercised by the claims) and then
advances the `SeqWait<RecordLsn, Lsn>`; the `SeqWait` primitive is not
part of the source tree and is modelled from the spec ("bump the LSN
gate") as a monotone advance recording the previous record position. -/
def advance_last_record_lsn (tl : BTimeline) (new_lsn : Nat) : BTimeline :=
  if tl.lastRecordLsn < new_lsn then
    { tl with prevRecordLsn := tl.lastRecordLsn, lastRecordLsn := new_lsn }
  else tl

/-- `create_empty_timeline`: fresh root timeline; metadata
`{ disk_consistent_lsn := 0, prev := none, ancestor := none }`, empty
store, snapshot cache not yet loaded. -/
def create_empty_timeline : BTimeline :=
  { data := [], meta := none, lastRecordLsn := 0, prevRecordLsn := 0,
    diskConsistentLsn := 0, ancestorTimeline := none, ancestorLsn := 0 }

/-- `branch_timeline` composed with the subsequent `get_timeline` open:
the destination metadata is written with `disk_consistent_lsn :=
start_lsn`, `ancestor := src`, `ancestor_lsn := start_lsn` and a
meaningful `prev` only when branching at the source's last record; the
opened child starts with an empty store and its gate at
`disk_consistent_lsn`. -/
def branch_timeline (src : BTimeline) (srcId : Nat) (start_lsn : Nat) :
    BTimeline :=
  let dst_prev : Option Nat :=
    if src.lastRecordLsn = start_lsn then some src.prevRecordLsn else none
  { data := [], meta := none, lastRecordLsn := start_lsn,
    prevRecordLsn := dst_prev.getD 0, diskConsistentLsn := start_lsn,
    ancestorTimeline := some srcId, ancestorLsn := start_lsn }

/-! ### Checkpointer (`checkpoint_internal`)

Reverse-walk the data space group by group (one `(rel, blknum)` per
outer iteration, jumping below `(rel, blknum, 0)` afterwards).  The
outer range is `[Data(Relation(0,0,0,0), 0, 0),
Data(Relation(MAX,MAX,MAX,MAX), u32::MAX, Lsn::MAX))`, as in the source.
For a top-of-group `Delta`, collect the chain (the iterator may cross
into lower blocks of the same relish; the source only asserts the relish
matches) and, when the accumulated record length reaches
`checkpoint_distance`, materialize and `put` at the top-of-chain key.
Note the source stores the raw page bytes (`img?.to_vec()`), not a
serialized `PageVersion::Image`. -/

/-- Inclusive lower bound of the checkpoint scan. -/
def cpFrom : DataKey := ⟨.Relation ⟨0, 0, 0, 0⟩, 0, 0⟩

/-- Exclusive upper bound of the checkpoint scan. -/
def cpTillInit : DataKey :=
  ⟨.Relation ⟨2 ^ 32 - 1, 2 ^ 32 - 1, 2 ^ 32 - 1, 255⟩, 2 ^ 32 - 1, LsnMAX⟩

/-- The chain-collection loop of `checkpoint_internal`: step the global
reverse iterator, accumulating records and their total payload length,
until an `Image` or `will_init` record is found; stepping onto a
different relish is the `assert!(dk.rel == dk2.rel)` panic.  Iterations
are bounded by the number of store entries (`fuel`). -/
def cpChain (s : Store) (rel : RelishTag) :
    Bool → List (Nat × WALRecord) → Nat → DataKey → Nat →
      Except String (List (Nat × WALRecord) × Option Bytes × Nat)
  | true, records, history, _, _ => .ok (records, none, history)
  | false, _, _, _, 0 => .error "fuel exhausted"
  | false, records, history, pos, fuel + 1 =>
    match nextBackDataRange s cpFrom pos with
    | none => .error "base image not found"
    | some (dk2, v2) =>
      match PageVersion.des v2 with
      | none => .error "deserialization failed"
      | some ver =>
        if dk2.rel = rel then
          match ver with
          | .Image img => .ok (records, some img, history)
          | .Delta rec2 =>
            cpChain s rel rec2.will_init (records ++ [(dk2.lsn, rec2)])
              (history + rec2.payload.length) dk2 fuel
        else .error "assertion failed: chain left the relish"

/-- The outer loop of `checkpoint_internal`: one iteration per
`(rel, blknum)` group, from the greatest group downwards.  Iterations are
bounded by the number of store entries (`fuel`). -/
def checkpointLoop (redo : RedoFn) (checkpoint_distance : Nat) :
    Store → DataKey → Nat → Except String Store
  | _, _, 0 => .error "fuel exhausted"
  | s, till, fuel + 1 =>
    match nextBackDataRange s cpFrom till with
    | none => .ok s
    | some (dk, v) =>
      match PageVersion.des v with
      | none => .error "deserialization failed"
      | some (.Image _) =>
        checkpointLoop redo checkpoint_distance s ⟨dk.rel, dk.blknum, 0⟩ fuel
      | some (.Delta r) =>
        match cpChain s dk.rel r.will_init [(dk.lsn, r)] r.payload.length dk
            (s.length + 1) with
        | .error e => .error e
        | .ok (records, page_img, history) =>
          if checkpoint_distance ≤ history then
            match reconstruct_page redo dk.rel dk.blknum dk.lsn
                ⟨records, page_img⟩ with
            | .error e => .error e
            | .ok img =>
              checkpointLoop redo checkpoint_distance
                (putKV s (.Data dk) img) ⟨dk.rel, dk.blknum, 0⟩ fuel
          else
            checkpointLoop redo checkpoint_distance s
              ⟨dk.rel, dk.blknum, 0⟩ fuel

/-- `checkpoint_internal(checkpoint_distance, forced)`: materialize long
delta chains.  Only the store is touched. -/
def checkpoint_internal (redo : RedoFn) (tl : BTimeline)
    (checkpoint_distance : Nat) : Except String BTimeline :=
  match checkpointLoop redo checkpoint_distance tl.data cpTillInit
      (tl.data.length + 1) with
  | .ok s => .ok { tl with data := s }
  | .error e => .error e

/-- `Timeline::checkpoint()`: the public facade passes
`checkpoint_distance = 0` to force materialization. -/
def Timeline.checkpoint (redo : RedoFn) (tl : BTimeline) :
    Except String BTimeline :=
  checkpoint_internal redo tl 0

/-! ### Garbage collection -/

/-- Modelled from the spec: aggregate GC counters (`GcResult` lives in
`repository.rs`, not part of the source tree; section 4.5: "return
aggregate counters with timing"; the wall-clock `elapsed` field is not
representable here and is omitted). -/
structure GcResult where
  deleted : Nat := 0
deriving DecidableEq, Repr

/-- `GcResult` aggregation (`totals += result`). -/
def GcResult.add (a b : GcResult) : GcResult := ⟨a.deleted + b.deleted⟩

/-- `gc_timeline(retain_lsns, cutoff)`: the per-row sweep is not
implemented for the buffered storage — the source returns a default
`GcResult` and touches nothing. -/
def gc_timeline (tl : BTimeline) (_retain_lsns : List Nat) (_cutoff : Nat) :
    Except String (GcResult × BTimeline) :=
  .ok ({}, tl)

/-- The per-timeline loop of `gc_iteration_internal`: skip timelines
other than the target, compute `cutoff = last_record_lsn - horizon`
(skipping when the subtraction underflows), optionally force a
checkpoint first, then run `gc_timeline` and aggregate. -/
def gcLoop (redo : RedoFn) (branchpoints : List (Nat × Nat))
    (target : Option Nat) (horizon : Nat) (checkpoint_before_gc : Bool) :
    List (Nat × BTimeline) → Except String (GcResult × List (Nat × BTimeline))
  | [] => .ok ({}, [])
  | (id, tl) :: rest =>
    let recTail := gcLoop redo branchpoints target horizon
      checkpoint_before_gc rest
    let skip : Except String (GcResult × List (Nat × BTimeline)) :=
      match recTail with
      | .error e => .error e
      | .ok (tot, rest') => .ok (tot, (id, tl) :: rest')
    let work : Except String (GcResult × List (Nat × BTimeline)) :=
      if horizon ≤ tl.lastRecordLsn then
        let cutoff := tl.lastRecordLsn - horizon
        let bps := branchpoints.filterMap
          (fun p => if p.1 = id then some p.2 else none)
        let tlc : Except String BTimeline :=
          if checkpoint_before_gc then Timeline.checkpoint redo tl
          else .ok tl
        match tlc with
        | .error e => .error e
        | .ok tl1 =>
          match gc_timeline tl1 bps cutoff with
          | .error e => .error e
          | .ok (r, tl2) =>
            match recTail with
            | .error e => .error e
            | .ok (tot, rest') => .ok (r.add tot, (id, tl2) :: rest')
      else skip
    match target with
    | some t => if ¬(id = t) then skip else work
    | none => work

/-- `gc_iteration_internal`: collect the branch points of all (or the
target's) timelines, then GC each timeline.  The timelines-directory
scan is the supplied association list. -/
def gc_iteration_internal (redo : RedoFn)
    (timelines : List (Nat × BTimeline)) (target : Option Nat)
    (horizon : Nat) (checkpoint_before_gc : Bool) :
    Except String (GcResult × List (Nat × BTimeline)) :=
  let branchpoints : List (Nat × Nat) := timelines.filterMap
    (fun p =>
      match p.2.ancestorTimeline with
      | some aid =>
        match target with
        | some t => if aid = t then some (aid, p.2.ancestorLsn) else none
        | none => some (aid, p.2.ancestorLsn)
      | none => none)
  gcLoop redo branchpoints target horizon checkpoint_before_gc timelines

/-! ### Durable metadata file (`save_metadata` / `load_metadata`)

Fixed 512-byte record: bytes `[0, 508)` carry the serialized
`TimelineMetadata` zero-padded, bytes `[508, 512)` a little-endian
CRC32C of the first 508 bytes.  File I/O is embedded as functions from /
to the file contents. -/

/-- `METADATA_MAX_SAFE_SIZE`. -/
def METADATA_MAX_SAFE_SIZE : Nat := 512

/-- `METADATA_CHECKSUM_SIZE`. -/
def METADATA_CHECKSUM_SIZE : Nat := 4

/-- `METADATA_MAX_DATA_SIZE`. -/
def METADATA_MAX_DATA_SIZE : Nat :=
  METADATA_MAX_SAFE_SIZE - METADATA_CHECKSUM_SIZE

/-- Metadata stored on disk for each timeline (`TimelineMetadata`); the
timeline id is a 16-byte value, modelled as a `Nat` below `2^128`. -/
structure TimelineMetadata where
  disk_consistent_lsn : Nat
  prev_record_lsn : Option Nat
  ancestor_timeline : Option Nat
  ancestor_lsn : Nat
deriving DecidableEq, Repr

/-- `Option` encoding: a tag byte, then the payload when present. -/
def serOpt (f : Nat → Bytes) : Option Nat → Bytes
  | none => [0]
  | some x => 1 :: f x

/-- Serialization of a `TimelineMetadata` (field order as declared). -/
def TimelineMetadata.ser (m : TimelineMetadata) : Bytes :=
  u64be m.disk_consistent_lsn ++ serOpt u64be m.prev_record_lsn
    ++ serOpt u128be m.ancestor_timeline ++ u64be m.ancestor_lsn

/-- Read an `Option` field. -/
def readOpt (f : Bytes → Option (Nat × Bytes)) :
    Bytes → Option (Option Nat × Bytes)
  | 0 :: r => some (none, r)
  | 1 :: r =>
    match f r with
    | some (x, rest) => some (some x, rest)
    | none => none
  | _ => none

/-- `TimelineMetadata::des_prefix`: deserialize the leading fields,
ignoring trailing (padding) bytes. -/
def TimelineMetadata.desPre (b : Bytes) : Option TimelineMetadata :=
  match readU64 b with
  | none => none
  | some (d, r1) =>
    match readOpt readU64 r1 with
    | none => none
    | some (p, r2) =>
      match readOpt readU128 r2 with
      | none => none
      | some (a, r3) =>
        match readU64 r3 with
        | none => none
        | some (al, _rest) => some ⟨d, p, a, al⟩

/-- The CRC-32C (Castagnoli) reflected polynomial. -/
def crcPoly : Nat := 0x82F63B78

/-- One bit step of the reflected CRC-32C register. -/
def crcStep1 (c : Nat) : Nat :=
  if c % 2 = 1 then (c / 2) ^^^ crcPoly else c / 2

/-- One byte step of the reflected CRC-32C register: fold in the byte,
then run eight bit steps. -/
def crcByte (c b : Nat) : Nat := crcStep1^[8] (c ^^^ b)

/-- `crc32c::crc32c`: CRC-32C with initial and final value `0xFFFFFFFF`. -/
def crc32c (data : Bytes) : Nat :=
  (data.foldl crcByte 0xFFFFFFFF) ^^^ 0xFFFFFFFF

/-- `save_metadata`: serialize, zero-pad to 512 bytes, overwrite the last
four bytes with the little-endian CRC32C of the first 508, produce the
file contents.  The source asserts the serialized form fits in 508 bytes,
which holds for every metadata value (the encoding is at most 42 bytes). -/
def save_metadata (m : TimelineMetadata) : Bytes :=
  let mb := m.ser
  let resized := mb ++ List.replicate (METADATA_MAX_SAFE_SIZE - mb.length) 0
  let payload := resized.take METADATA_MAX_DATA_SIZE
  payload ++ u32le (crc32c payload)

/-- `load_metadata`: require exactly 512 bytes, verify the checksum,
deserialize the prefix.  The final `assert!(disk_consistent_lsn.is_aligned())`
is a panic in the source; it is modelled as a load failure (no claim
exercises it, the checksum check fails first on any corruption). -/
def load_metadata (file : Bytes) : Option TimelineMetadata :=
  if file.length = METADATA_MAX_SAFE_SIZE then
    let data := file.take METADATA_MAX_DATA_SIZE
    let checksum_bytes := file.drop METADATA_MAX_DATA_SIZE
    if u32le (crc32c data) = checksum_bytes then
      match TimelineMetadata.desPre data with
      | some m =>
        if Lsn.is_aligned m.disk_consistent_lsn = true then some m else none
      | none => none
    else none
  else none

/-! ### Serialization roundtrips -/

/-- Reading back a big-endian `u32`. -/
theorem readU32_u32be (n : Nat) (r : Bytes) (h : n < 2 ^ 32) :
    readU32 (u32be n ++ r) = some (n, r) := by
  simp only [u32be, List.cons_append, List.nil_append, readU32]
  congr 1
  congr 1
  omega

/-- Reading back a big-endian `u64`. -/
theorem readU64_u64be (n : Nat) (r : Bytes) (h : n < 2 ^ 64) :
    readU64 (u64be n ++ r) = some (n, r) := by
  simp only [u64be, List.cons_append, List.nil_append, readU64]
  congr 1
  congr 1
  omega

/-- Reading back a big-endian `u128`. -/
theorem readU128_u128be (n : Nat) (r : Bytes) (h : n < 2 ^ 128) :
    readU128 (u128be n ++ r) = some (n, r) := by
  have h1 : n / 2 ^ 64 < 2 ^ 64 := by omega
  have h2 : n % 2 ^ 64 < 2 ^ 64 := Nat.mod_lt _ (by norm_num)
  simp only [u128be, readU128, List.append_assoc]
  rw [readU64_u64be _ _ h1]
  dsimp only
  rw [readU64_u64be _ _ h2]
  dsimp only
  simp only [Option.some.injEq, Prod.mk.injEq]
  constructor
  · omega
  · trivial

/-- Reading back a length-prefixed byte string. -/
theorem readBytes_serBytes (b r : Bytes) (h : b.length < 2 ^ 64) :
    readBytes (serBytes b ++ r) = some (b, r) := by
  simp only [serBytes, readBytes, List.append_assoc]
  rw [readU64_u64be _ _ h]
  dsimp only
  rw [if_pos (by simp)]
  simp [List.take_append, List.drop_append]

/-- `des` inverts `ser` on full page images. -/
theorem desPV_ser_image (img : Bytes) (h : img.length < 2 ^ 64) :
    PageVersion.des (PageVersion.ser (.Image img)) = some (.Image img) := by
  simp only [PageVersion.ser, PageVersion.des]
  rw [show (u32be 0 ++ serBytes img) = u32be 0 ++ (serBytes img ++ []) by simp]
  rw [readU32_u32be 0 (serBytes img ++ []) (by norm_num)]
  dsimp only
  rw [show serBytes img ++ [] = serBytes img ++ ([] : Bytes) ++ [] by simp]
  rw [show serBytes img ++ ([] : Bytes) ++ [] = serBytes img ++ [] by simp]
  rw [show (serBytes img ++ [] : Bytes) = serBytes img ++ ([] : Bytes) from rfl]
  rw [readBytes_serBytes img [] h]
  simp

/-- `des` inverts `ser` on tombstone metadata values. -/
theorem desMV_ser_none :
    MetadataValue.des (MetadataValue.ser ⟨none⟩) = some ⟨none⟩ := by
  rfl

/-- `des` inverts `ser` on size metadata values. -/
theorem desMV_ser_some (n : Nat) (h : n < 2 ^ 32) :
    MetadataValue.des (MetadataValue.ser ⟨some n⟩) = some ⟨some n⟩ := by
  simp only [MetadataValue.ser, MetadataValue.des]
  have h0 : (u32be n).headI ≠ 0 ∨ True := by simp
  rw [show (u32be n : Bytes) = u32be n ++ ([] : Bytes) by simp]
  rw [readU32_u32be n [] h]
  simp

/-! ### Scan lemmas -/

/-- Unfolding equation: a data scan skips metadata entries. -/
theorem nextBackData_cons_meta (mk' : MetadataKey) (v : Bytes)
    (rest : Store) (rel : RelishTag) (blk : Nat) (hi : Nat) :
    nextBackData ((StoreKey.Metadata mk', v) :: rest) rel blk hi
      = nextBackData rest rel blk hi := rfl

/-- Unfolding equation: a data scan combines a data entry with the scan
of the remaining entries. -/
theorem nextBackData_cons_data (dk : DataKey) (v : Bytes) (rest : Store)
    (rel : RelishTag) (blk : Nat) (hi : Nat) :
    nextBackData ((StoreKey.Data dk, v) :: rest) rel blk hi
      = if dk.rel = rel ∧ dk.blknum = blk ∧ dk.lsn ≤ hi then
          match nextBackData rest rel blk hi with
          | none => some (dk.lsn, v)
          | some (m, w) => if m > dk.lsn then some (m, w) else some (dk.lsn, v)
        else nextBackData rest rel blk hi := rfl

/-- Removing metadata-keyed entries does not change a data scan. -/
theorem nextBackData_filter_meta (s : Store) (mk : MetadataKey)
    (rel : RelishTag) (blk : Nat) (hi : Nat) :
    nextBackData (s.filter fun p => ¬(p.1 = .Metadata mk)) rel blk hi
      = nextBackData s rel blk hi := by
  induction s with
  | nil => rfl
  | cons p rest ih =>
    obtain ⟨k, v⟩ := p
    rw [List.filter_cons]
    cases k with
    | Metadata mk' =>
      by_cases he : (StoreKey.Metadata mk' : StoreKey) = .Metadata mk
      · rw [if_neg (by simp [he])]
        rw [nextBackData_cons_meta]
        exact ih
      · rw [if_pos (by simp [he])]
        rw [nextBackData_cons_meta, nextBackData_cons_meta]
        exact ih
    | Data dk =>
      rw [if_pos (by simp)]
      rw [nextBackData_cons_data, nextBackData_cons_data, ih]

/-- After a data `put` at `(rel, blk, L)`, the reverse scan bounded by
`L` finds exactly that entry. -/
theorem nextBackData_putKV_top (s : Store) (rel : RelishTag) (blk : Nat)
    (L : Nat) (v : Bytes) :
    nextBackData (putKV s (.Data ⟨rel, blk, L⟩) v) rel blk L = some (L, v) := by
  simp only [putKV]
  rw [nextBackData_cons_data]
  rw [if_pos ⟨rfl, rfl, le_refl L⟩]
  cases hr : nextBackData (s.filter fun p => ¬(p.1 = .Data ⟨rel, blk, L⟩))
      rel blk L with
  | none => rfl
  | some mw =>
    obtain ⟨m, w⟩ := mw
    have hle := nextBackData_le hr
    dsimp only
    have hng : ¬(m > L) := by omega
    rw [if_neg hng]

/-- A metadata `put` does not change a data scan. -/
theorem nextBackData_putKV_meta (s : Store) (mk : MetadataKey) (v : Bytes)
    (rel : RelishTag) (blk : Nat) (hi : Nat) :
    nextBackData (putKV s (.Metadata mk) v) rel blk hi
      = nextBackData s rel blk hi := by
  simp only [putKV]
  rw [nextBackData_cons_meta]
  exact nextBackData_filter_meta s mk rel blk hi

/-- `advance_last_record_lsn` does not touch the store. -/
theorem advance_data (tl : BTimeline) (l : Nat) :
    (advance_last_record_lsn tl l).data = tl.data := by
  unfold advance_last_record_lsn
  split <;> rfl

/-- A successful `put_page_image` leaves the new image as the latest
version at or below its LSN, and implies the argument checks passed. -/
theorem put_page_image_scan (tl : BTimeline) (rel : RelishTag)
    (blknum : Nat) (lsn : Nat) (img : Bytes)
    (hok : (put_page_image tl rel blknum lsn img).1 = .ok ()) :
    nextBackData ((put_page_image tl rel blknum lsn img).2).data rel blknum
        lsn = some (lsn, PageVersion.ser (.Image img))
      ∧ ¬(¬(rel.is_blocky = true) ∧ ¬(blknum = 0)) := by
  simp only [put_page_image] at hok ⊢
  by_cases h1 : ¬(rel.is_blocky = true) ∧ ¬(blknum = 0)
  · rw [if_pos h1] at hok
    simp at hok
  · rw [if_neg h1] at hok ⊢
    by_cases h2 : ¬(Lsn.is_aligned lsn = true)
    · rw [if_pos h2] at hok
      simp at hok
    · rw [if_neg h2] at hok ⊢
      cases hload : load_metadata_cache { tl with data := putKV tl.data (StoreKey.Data ⟨rel, blknum, lsn⟩) (PageVersion.ser (PageVersion.Image img)) } with
      | error e =>
        rw [hload] at hok
        simp at hok
      | ok cache =>
        dsimp only
        by_cases h3 : ((cacheFind cache rel).map (·.size)).getD 0 ≤ blknum
        · rw [if_pos h3]
          dsimp only
          rw [nextBackData_putKV_meta, nextBackData_putKV_top]
          exact ⟨rfl, h1⟩
        · rw [if_neg h3]
          dsimp only
          rw [nextBackData_putKV_top]
          exact ⟨rfl, h1⟩

/-- C1.  For every entity `e`, block `b`, aligned LSN `lsn` and
8192-byte image `img`: after `put_page_image(e, b, lsn, img)` succeeds
and `advance_last_record_lsn(lsn)` is called, `get_page_at_lsn(e, b,
lsn)` returns `img` bit-exactly.  The reverse scan finds the `Image`
version at exactly `(e, b, lsn)` and returns it directly; no redo is
invoked, which is why the statement holds for every redo oracle. -/
theorem c1_read_after_write (redo : RedoFn) (tl : BTimeline)
    (rel : RelishTag) (blknum : Nat) (lsn : Nat) (img : Bytes)
    (haligned : Lsn.is_aligned lsn = true)
    (hlen : img.length = 8192)
    (hok : (put_page_image tl rel blknum lsn img).1 = .ok ()) :
    get_page_at_lsn redo
        (advance_last_record_lsn (put_page_image tl rel blknum lsn img).2 lsn)
        rel blknum lsn
      = .ok img := by
  obtain ⟨hscan, hguard⟩ := put_page_image_scan tl rel blknum lsn img hok
  simp only [get_page_at_lsn, advance_data]
  rw [if_neg hguard, hscan]
  dsimp only
  rw [desPV_ser_image img (by rw [hlen]; norm_num)]

/-- Witness for C1 at a concrete input: an all-zeros 8 KiB image written
to block 0 of a relation at LSN 16 on a fresh timeline. -/
theorem c1_read_after_write_witness :
    Lsn.is_aligned 16 = true
      ∧ (List.replicate 8192 0).length = 8192
      ∧ (put_page_image create_empty_timeline (.Relation ⟨1, 1, 1, 0⟩) 0 16
          (List.replicate 8192 0)).1 = .ok ()
      ∧ get_page_at_lsn (fun _ _ _ _ _ => .ok [])
          (advance_last_record_lsn
            (put_page_image create_empty_timeline (.Relation ⟨1, 1, 1, 0⟩) 0 16
              (List.replicate 8192 0)).2 16)
          (.Relation ⟨1, 1, 1, 0⟩) 0 16
        = .ok (List.replicate 8192 0) :=
  ⟨rfl, by rw [List.length_replicate],
    rfl,
    c1_read_after_write (fun _ _ _ _ _ => .ok []) create_empty_timeline
      (.Relation ⟨1, 1, 1, 0⟩) 0 16 (List.replicate 8192 0) rfl
      (by rw [List.length_replicate]) rfl⟩

/-- C10.  For every non-blocky entity and every LSN, `get_relish_size`
returns an error without consulting the store (the result is the same
for every timeline state), and consequently `get_rel_exists` errors as
well; only blocky entities can be size-queried. -/
theorem c10_nonblocky_size_error (tl : BTimeline) (rel : RelishTag)
    (lsn : Nat) (h : rel.is_blocky = false) :
    get_relish_size tl rel lsn
        = .error "invalid get_relish_size request for non-blocky relish"
      ∧ get_rel_exists tl rel lsn
        = .error "invalid get_relish_size request for non-blocky relish" := by
  have hg : get_relish_size tl rel lsn
      = .error "invalid get_relish_size request for non-blocky relish" := by
    unfold get_relish_size
    rw [if_pos (by simp [h])]
  exact ⟨hg, by unfold get_rel_exists; rw [hg]; rfl⟩

/-- Witness for C10 at a concrete input: the `Checkpoint` relish is not
blocky; even after block 0 of it has been written with `put_page_image`
(which succeeds for block 0 of a non-blocky relish), `get_relish_size`
still errors. -/
theorem c10_nonblocky_size_error_witness :
    RelishTag.is_blocky .Checkpoint = false
      ∧ (put_page_image create_empty_timeline .Checkpoint 0 16 [1]).1 = .ok ()
      ∧ get_relish_size
          (put_page_image create_empty_timeline .Checkpoint 0 16 [1]).2
          .Checkpoint 16
        = .error "invalid get_relish_size request for non-blocky relish" :=
  ⟨rfl, rfl,
    (c10_nonblocky_size_error
      (put_page_image create_empty_timeline .Checkpoint 0 16 [1]).2
      .Checkpoint 16 rfl).1⟩

/-- No data row for `(rel, blknum)` at or below `hi` means the reverse
scan is empty. -/
theorem nextBackData_none_of_no_row (s : Store) (rel : RelishTag)
    (blknum : Nat) (hi : Nat)
    (h : ∀ p ∈ s, ∀ l : Nat, p.1 = StoreKey.Data ⟨rel, blknum, l⟩ → ¬(l ≤ hi)) :
    nextBackData s rel blknum hi = none := by
  induction s with
  | nil => rfl
  | cons p rest ih =>
    obtain ⟨k, v⟩ := p
    have ihr := ih (fun q hq l hl => h q (List.mem_cons_of_mem _ hq) l hl)
    cases k with
    | Metadata mk' => rw [nextBackData_cons_meta]; exact ihr
    | Data dk =>
      rw [nextBackData_cons_data]
      rw [if_neg]
      · exact ihr
      · rintro ⟨hrel, hblk, hle⟩
        exact h (StoreKey.Data dk, v) (List.mem_cons_self _ _) dk.lsn
          (by rw [← hrel, ← hblk]) hle

/-- C8, amended.  When no data row with LSN at most the requested one
exists for `(rel, blknum)` (and the request itself is well-formed), the
source returns the error `relish not found` — not a zeroed page; the
zeroed-page fallback in `reconstruct_page` is unreachable from
`get_page_at_lsn`, whose chains always end in an image, a `will_init`
record, or an earlier error. -/
theorem c8_missing_page_errors (redo : RedoFn) (tl : BTimeline)
    (rel : RelishTag) (blknum : Nat) (lsn : Nat)
    (hreq : rel.is_blocky = true ∨ blknum = 0)
    (h : ∀ p ∈ tl.data, ∀ l : Nat,
      p.1 = StoreKey.Data ⟨rel, blknum, l⟩ → ¬(l ≤ lsn)) :
    get_page_at_lsn redo tl rel blknum lsn = .error "relish not found" := by
  unfold get_page_at_lsn
  rw [if_neg (by rcases hreq with h' | h' <;> simp [h'])]
  rw [nextBackData_none_of_no_row tl.data rel blknum lsn h]

/-- Witness for C8's amended statement: an empty fresh timeline. -/
theorem c8_missing_page_errors_witness :
    ((RelishTag.Relation ⟨1, 1, 1, 0⟩).is_blocky = true ∨ (0 : Nat) = 0)
      ∧ get_page_at_lsn (fun _ _ _ _ _ => .ok []) create_empty_timeline
          (.Relation ⟨1, 1, 1, 0⟩) 0 16
        = .error "relish not found" :=
  ⟨Or.inl rfl,
    c8_missing_page_errors (fun _ _ _ _ _ => .ok []) create_empty_timeline
      (.Relation ⟨1, 1, 1, 0⟩) 0 16 (Or.inl rfl) (by intro p hp; cases hp)⟩

/-- Counterexample to C8 as stated: on an empty timeline (no data row at
all), the claim asserts `get_page_at_lsn` returns the zeroed 8192-byte
page, but the source returns the error `relish not found`. -/
theorem c8_zero_page_counterexample :
    get_page_at_lsn (fun _ _ _ _ _ => .ok ZERO_PAGE) create_empty_timeline
        (.Relation ⟨2, 2, 2, 0⟩) 0 16
      = .error "relish not found"
      ∧ ¬(get_page_at_lsn (fun _ _ _ _ _ => .ok ZERO_PAGE)
          create_empty_timeline (.Relation ⟨2, 2, 2, 0⟩) 0 16
        = .ok ZERO_PAGE) :=
  ⟨rfl, by simp [get_page_at_lsn, create_empty_timeline, nextBackData]⟩

/-- C4, amended.  `put_wal_record`, `put_page_image` and `put_truncation`
called with an unaligned LSN return an error before any mutation: the
store, the snapshot cache and `disk_consistent_lsn` are untouched.
`drop_relish`, however, performs no alignment check (see the
counterexample). -/
theorem c4_alignment_rejected (tl : BTimeline) (rel : RelishTag)
    (blknum : Nat) (lsn : Nat) (r : WALRecord) (img : Bytes) (relsize : Nat)
    (h : ¬(Lsn.is_aligned lsn = true)) :
    ((put_wal_record tl lsn rel blknum r).1.isOk = false
        ∧ (put_wal_record tl lsn rel blknum r).2 = tl)
      ∧ ((put_page_image tl rel blknum lsn img).1.isOk = false
        ∧ (put_page_image tl rel blknum lsn img).2 = tl)
      ∧ ((put_truncation tl rel lsn relsize).1.isOk = false
        ∧ (put_truncation tl rel lsn relsize).2 = tl) := by
  refine ⟨?_, ?_, ?_⟩
  · unfold put_wal_record
    by_cases h1 : ¬(rel.is_blocky = true) ∧ ¬(blknum = 0)
    · rw [if_pos h1]
      exact ⟨rfl, rfl⟩
    · rw [if_neg h1, if_pos h]
      exact ⟨rfl, rfl⟩
  · unfold put_page_image
    by_cases h1 : ¬(rel.is_blocky = true) ∧ ¬(blknum = 0)
    · rw [if_pos h1]
      exact ⟨rfl, rfl⟩
    · rw [if_neg h1, if_pos h]
      exact ⟨rfl, rfl⟩
  · unfold put_truncation
    by_cases h1 : ¬(rel.is_blocky = true)
    · rw [if_pos h1]
      exact ⟨rfl, rfl⟩
    · rw [if_neg h1, if_pos h]
      exact ⟨rfl, rfl⟩

/-- Witness for C4's amended statement at the unaligned LSN 1. -/
theorem c4_alignment_rejected_witness :
    ¬(Lsn.is_aligned 1 = true)
      ∧ (put_page_image create_empty_timeline (.Relation ⟨1, 1, 1, 0⟩) 0 1
          [9]).1.isOk = false
      ∧ (put_page_image create_empty_timeline (.Relation ⟨1, 1, 1, 0⟩) 0 1
          [9]).2 = create_empty_timeline :=
  ⟨by decide,
    (c4_alignment_rejected create_empty_timeline (.Relation ⟨1, 1, 1, 0⟩)
      0 1 ⟨1, false, []⟩ [9] 0 (by decide)).2.1⟩

/-- Counterexample to C4 as stated: `drop_relish` with the unaligned LSN
1 succeeds and mutates the store (it inserts the tombstone row and
stores `disk_consistent_lsn = 1`), where the claim requires an error and
no mutation. -/
theorem c4_drop_unaligned_counterexample :
    ¬(Lsn.is_aligned 1 = true)
      ∧ (drop_relish create_empty_timeline (.Relation ⟨1, 1, 1, 0⟩) 1).1
        = .ok ()
      ∧ ¬((drop_relish create_empty_timeline (.Relation ⟨1, 1, 1, 0⟩) 1).2
        = create_empty_timeline) := by
  refine ⟨by decide, rfl, ?_⟩
  intro h
  have := congrArg BTimeline.diskConsistentLsn h
  simp [drop_relish, create_empty_timeline, load_metadata_cache,
    loadMetadataLoop, nextBackMetaBelow] at this

/-- Frame facts for `put_wal_record`: the LSN gate is never touched, and
`disk_consistent_lsn` is either stored to the write's LSN or untouched
(on the early-error paths). -/
theorem put_wal_record_frame (tl : BTimeline) (lsn : Nat) (rel : RelishTag)
    (blknum : Nat) (r : WALRecord) :
    ((put_wal_record tl lsn rel blknum r).2).lastRecordLsn = tl.lastRecordLsn
      ∧ (((put_wal_record tl lsn rel blknum r).2).diskConsistentLsn = lsn
        ∨ ((put_wal_record tl lsn rel blknum r).2).diskConsistentLsn
          = tl.diskConsistentLsn) := by
  simp only [put_wal_record]
  split
  · exact ⟨rfl, Or.inr rfl⟩
  split
  · exact ⟨rfl, Or.inr rfl⟩
  split
  · exact ⟨rfl, Or.inr rfl⟩
  split
  · exact ⟨rfl, Or.inl rfl⟩
  · exact ⟨rfl, Or.inl rfl⟩

/-- Frame facts for `put_page_image`, as for `put_wal_record`. -/
theorem put_page_image_frame (tl : BTimeline) (rel : RelishTag)
    (blknum : Nat) (lsn : Nat) (img : Bytes) :
    ((put_page_image tl rel blknum lsn img).2).lastRecordLsn
        = tl.lastRecordLsn
      ∧ (((put_page_image tl rel blknum lsn img).2).diskConsistentLsn = lsn
        ∨ ((put_page_image tl rel blknum lsn img).2).diskConsistentLsn
          = tl.diskConsistentLsn) := by
  simp only [put_page_image]
  split
  · exact ⟨rfl, Or.inr rfl⟩
  split
  · exact ⟨rfl, Or.inr rfl⟩
  split
  · exact ⟨rfl, Or.inr rfl⟩
  split
  · exact ⟨rfl, Or.inl rfl⟩
  · exact ⟨rfl, Or.inl rfl⟩

/-- Frame facts for `put_truncation`, as for `put_wal_record`. -/
theorem put_truncation_frame (tl : BTimeline) (rel : RelishTag) (lsn : Nat)
    (relsize : Nat) :
    ((put_truncation tl rel lsn relsize).2).lastRecordLsn = tl.lastRecordLsn
      ∧ (((put_truncation tl rel lsn relsize).2).diskConsistentLsn = lsn
        ∨ ((put_truncation tl rel lsn relsize).2).diskConsistentLsn
          = tl.diskConsistentLsn) := by
  simp only [put_truncation]
  split
  · exact ⟨rfl, Or.inr rfl⟩
  split
  · exact ⟨rfl, Or.inr rfl⟩
  split
  · exact ⟨rfl, Or.inr rfl⟩
  · exact ⟨rfl, Or.inl rfl⟩

/-- Frame facts for `drop_relish`, as for `put_wal_record`. -/
theorem drop_relish_frame (tl : BTimeline) (rel : RelishTag) (lsn : Nat) :
    ((drop_relish tl rel lsn).2).lastRecordLsn = tl.lastRecordLsn
      ∧ (((drop_relish tl rel lsn).2).diskConsistentLsn = lsn
        ∨ ((drop_relish tl rel lsn).2).diskConsistentLsn
          = tl.diskConsistentLsn) := by
  simp only [drop_relish]
  split
  · exact ⟨rfl, Or.inr rfl⟩
  · exact ⟨rfl, Or.inl rfl⟩

/-- `advance_last_record_lsn` keeps `disk_consistent_lsn` and only moves
the gate upwards, to at least the given LSN. -/
theorem advance_props (u : BTimeline) (lsn : Nat) :
    (advance_last_record_lsn u lsn).diskConsistentLsn = u.diskConsistentLsn
      ∧ u.lastRecordLsn ≤ (advance_last_record_lsn u lsn).lastRecordLsn
      ∧ lsn ≤ (advance_last_record_lsn u lsn).lastRecordLsn := by
  unfold advance_last_record_lsn
  split
  · rename_i hlt
    exact ⟨rfl, le_of_lt hlt, le_refl _⟩
  · rename_i hge
    exact ⟨rfl, le_refl _, by omega⟩

/-- Timeline states reachable from a fresh empty timeline through the
writer interface, with no constraint on how the LSN gate is advanced;
this includes the states between a `put` and the following
`advance_last_record_lsn`. -/
inductive Reachable : BTimeline → Prop where
  | init : Reachable create_empty_timeline
  | wal : ∀ tl lsn rel blknum r, Reachable tl →
      Reachable (put_wal_record tl lsn rel blknum r).2
  | image : ∀ tl rel blknum lsn img, Reachable tl →
      Reachable (put_page_image tl rel blknum lsn img).2
  | trunc : ∀ tl rel lsn relsize, Reachable tl →
      Reachable (put_truncation tl rel lsn relsize).2
  | drop : ∀ tl rel lsn, Reachable tl →
      Reachable (drop_relish tl rel lsn).2
  | advance : ∀ tl lsn, Reachable tl →
      Reachable (advance_last_record_lsn tl lsn)

/-- Timeline states reachable when the writer follows the ingest
discipline of spec section 4.8: every `put` at LSN `L` is followed by
`advance_last_record_lsn(L)` before the state is observed. -/
inductive DisciplinedReachable : BTimeline → Prop where
  | init : DisciplinedReachable create_empty_timeline
  | wal : ∀ tl lsn rel blknum r, DisciplinedReachable tl →
      DisciplinedReachable
        (advance_last_record_lsn (put_wal_record tl lsn rel blknum r).2 lsn)
  | image : ∀ tl rel blknum lsn img, DisciplinedReachable tl →
      DisciplinedReachable
        (advance_last_record_lsn (put_page_image tl rel blknum lsn img).2 lsn)
  | trunc : ∀ tl rel lsn relsize, DisciplinedReachable tl →
      DisciplinedReachable
        (advance_last_record_lsn (put_truncation tl rel lsn relsize).2 lsn)
  | drop : ∀ tl rel lsn, DisciplinedReachable tl →
      DisciplinedReachable
        (advance_last_record_lsn (drop_relish tl rel lsn).2 lsn)
  | advance : ∀ tl lsn, DisciplinedReachable tl →
      DisciplinedReachable (advance_last_record_lsn tl lsn)

/-- C5, amended.  `disk_consistent_lsn ≤ last_record_lsn` holds at every
state reached under the ingest discipline (each put immediately followed
by an advance of the gate to the put's LSN); between a put and its
advance the invariant can be violated, as the counterexample shows. -/
theorem c5_invariant_disciplined (tl : BTimeline)
    (h : DisciplinedReachable tl) :
    tl.diskConsistentLsn ≤ tl.lastRecordLsn := by
  induction h with
  | init => exact le_refl _
  | wal tl lsn rel blknum r hD ih =>
    have hf := put_wal_record_frame tl lsn rel blknum r
    have ha := advance_props (put_wal_record tl lsn rel blknum r).2 lsn
    omega
  | image tl rel blknum lsn img hD ih =>
    have hf := put_page_image_frame tl rel blknum lsn img
    have ha := advance_props (put_page_image tl rel blknum lsn img).2 lsn
    omega
  | trunc tl rel lsn relsize hD ih =>
    have hf := put_truncation_frame tl rel lsn relsize
    have ha := advance_props (put_truncation tl rel lsn relsize).2 lsn
    omega
  | drop tl rel lsn hD ih =>
    have hf := drop_relish_frame tl rel lsn
    have ha := advance_props (drop_relish tl rel lsn).2 lsn
    omega
  | advance tl lsn hD ih =>
    have ha := advance_props tl lsn
    omega

/-- Witness for C5's amended statement at the initial state. -/
theorem c5_invariant_disciplined_witness :
    DisciplinedReachable create_empty_timeline
      ∧ create_empty_timeline.diskConsistentLsn
        ≤ create_empty_timeline.lastRecordLsn :=
  ⟨DisciplinedReachable.init,
    c5_invariant_disciplined create_empty_timeline DisciplinedReachable.init⟩

/-- Counterexample to C5 as stated: the state between a writer put and
the subsequent `advance_last_record_lsn` is reachable and violates the
invariant — a `put_page_image` at LSN 8 on a fresh timeline stores
`disk_consistent_lsn = 8` while `last_record_lsn` is still 0. -/
theorem c5_between_put_and_advance_counterexample :
    Reachable (put_page_image create_empty_timeline
        (.Relation ⟨1, 1, 1, 0⟩) 0 8 [1]).2
      ∧ ¬((put_page_image create_empty_timeline
            (.Relation ⟨1, 1, 1, 0⟩) 0 8 [1]).2.diskConsistentLsn
          ≤ (put_page_image create_empty_timeline
            (.Relation ⟨1, 1, 1, 0⟩) 0 8 [1]).2.lastRecordLsn) :=
  ⟨Reachable.image create_empty_timeline (.Relation ⟨1, 1, 1, 0⟩) 0 8 [1]
      Reachable.init,
    by decide⟩

/-- Concrete relation used by the C3 scenario. -/
def relC3 : RelishTag := .Relation ⟨3, 3, 3, 0⟩

/-- C3 scenario: a parent timeline holding one page image at LSN 16. -/
def parentC3 : BTimeline :=
  advance_last_record_lsn
    (put_page_image create_empty_timeline relC3 0 16 [5]).2 16

/-- C3 scenario: a child branched from the parent at LSN 16. -/
def childC3 : BTimeline := branch_timeline parentC3 0 16

/-- C3, evaluated at the failing input.  The child C is branched from
parent P at LSN 16 and holds no local data; a read on C at the branch
LSN does not fall through to the ancestor (the ancestor link is present
but `get_page_at_lsn` never consults it — `FIXME-KK: cross-timelines
histories are not handled now`): it fails with `relish not found`, while
the identical read on P returns the page. -/
theorem c3_branch_read_not_inherited :
    childC3.ancestorTimeline = some 0
      ∧ childC3.ancestorLsn = 16
      ∧ get_page_at_lsn (fun _ _ _ _ _ => .ok []) parentC3 relC3 0 16
        = .ok [5]
      ∧ get_page_at_lsn (fun _ _ _ _ _ => .ok []) childC3 relC3 0 16
        = .error "relish not found" :=
  ⟨rfl, rfl, rfl, rfl⟩

/-- Concrete relation used by the C2 scenario. -/
def relC2 : RelishTag := .Relation ⟨2, 2, 2, 0⟩

/-- Concrete redo oracle used by the C2 scenario. -/
def redoC2 : RedoFn := fun _ _ _ _ _ => .ok [7]

/-- C2 scenario: image at LSN 16, non-init delta at LSN 24, gate at 24. -/
def tlC2 : BTimeline :=
  advance_last_record_lsn
    (put_wal_record
      (advance_last_record_lsn
        (put_page_image create_empty_timeline relC2 0 16 [5, 6]).2 16)
      24 relC2 0 ⟨24, false, [1, 2, 3]⟩).2 24

/-- C2 scenario: the state after one forced checkpoint. -/
def tlC2cp : BTimeline := (Timeline.checkpoint redoC2 tlC2).toOption.getD tlC2

/-- C2, evaluated at the failing input.  Before the checkpoint the read
at LSN 24 materializes the chain (image at 16 plus one delta) through
the redo oracle; `checkpoint()` (forced, distance 0) then overwrites the
top-of-chain row with the raw materialized page bytes instead of a
serialized `PageVersion::Image` (`store.data.put(&key, &img?.to_vec())`),
after which the same read fails to deserialize, and a second consecutive
`checkpoint()` fails as well — the page-reconstruction results are not
preserved. -/
theorem c2_checkpoint_changes_reads :
    get_page_at_lsn redoC2 tlC2 relC2 0 24 = .ok [7]
      ∧ Timeline.checkpoint redoC2 tlC2 = .ok tlC2cp
      ∧ tlC2cp.data = putKV tlC2.data (.Data ⟨relC2, 0, 24⟩) [7]
      ∧ get_page_at_lsn redoC2 tlC2cp relC2 0 24
        = .error "deserialization failed"
      ∧ Timeline.checkpoint redoC2 tlC2cp = .error "deserialization failed" :=
  ⟨rfl, rfl, rfl, rfl, rfl⟩

/-- Concrete relation used by the C9 scenario. -/
def relC9 : RelishTag := .Relation ⟨9, 9, 9, 0⟩

/-- Concrete redo oracle used by the C9 scenario. -/
def redoC9 : RedoFn := fun _ _ _ _ _ => .ok [9]

/-- C9 scenario: one `will_init` delta at LSN 8, gate at 8. -/
def tlC9 : BTimeline :=
  advance_last_record_lsn
    (put_wal_record create_empty_timeline 8 relC9 0 ⟨8, true, [1]⟩).2 8

/-- C9 scenario: the same timeline after the forced pre-GC checkpoint
materialized the delta (as raw page bytes, see C2). -/
def tlC9cp : BTimeline :=
  { tlC9 with data := putKV tlC9.data (.Data ⟨relC9, 0, 8⟩) [9] }

/-- Helper for C9: `gcLoop` without the pre-checkpoint is the identity
on the timelines and reports all-zero counters. -/
theorem gcLoop_no_checkpoint (redo : RedoFn) (bps : List (Nat × Nat))
    (target : Option Nat) (horizon : Nat) :
    ∀ tls : List (Nat × BTimeline),
      gcLoop redo bps target horizon false tls = .ok ({}, tls) := by
  intro tls
  induction tls with
  | nil => rfl
  | cons p rest ih =>
    obtain ⟨id, tl⟩ := p
    simp only [gcLoop, ih]
    cases target with
    | none =>
      by_cases hh : horizon ≤ tl.lastRecordLsn
      · simp [hh, gc_timeline, GcResult.add]
      · simp [hh]
    | some t =>
      by_cases ht : ¬(id = t)
      · simp [ht]
      · by_cases hh : horizon ≤ tl.lastRecordLsn
        · simp [ht, hh, gc_timeline, GcResult.add]
        · simp [ht, hh]

/-- C9, amended.  `gc_timeline` is a pure no-op for every store state,
retain list and cutoff: it deletes nothing, changes nothing, and returns
all-zero counters; `gc_iteration` likewise deletes nothing and returns
zero counters, and with `checkpoint_before_gc = false` it leaves every
timeline bit-identical.  (With `checkpoint_before_gc = true` the forced
pre-checkpoint may rewrite the store — see the counterexample.) -/
theorem c9_gc_deletes_nothing :
    (∀ (tl : BTimeline) (retain : List Nat) (cutoff : Nat),
        gc_timeline tl retain cutoff = .ok ({}, tl))
      ∧ ∀ (redo : RedoFn) (tls : List (Nat × BTimeline)) (target : Option Nat)
          (horizon : Nat),
          gc_iteration_internal redo tls target horizon false = .ok ({}, tls) :=
  ⟨fun _ _ _ => rfl,
    fun redo tls target horizon => by
      unfold gc_iteration_internal
      exact gcLoop_no_checkpoint redo _ target horizon tls⟩

/-- Counterexample to C9 as stated: with `checkpoint_before_gc = true`,
`gc_iteration` still returns all-zero counters but the forced checkpoint
rewrites the versioned store (the materialized raw page bytes replace
the serialized delta), so "the versioned store contents ... are
unchanged" fails. -/
theorem c9_checkpoint_before_gc_counterexample :
    gc_iteration_internal redoC9 [(0, tlC9)] none 0 true
        = .ok ({}, [(0, tlC9cp)])
      ∧ ¬(tlC9cp.data = tlC9.data) :=
  ⟨rfl, by decide⟩

/-- Unfolding equation: a metadata scan combines a metadata entry with
the scan of the remaining entries. -/
theorem nextBackMeta_cons_meta (mk : MetadataKey) (v : Bytes) (rest : Store)
    (rel : RelishTag) (hi : Nat) :
    nextBackMeta ((StoreKey.Metadata mk, v) :: rest) rel hi
      = if mk.rel = rel ∧ mk.lsn ≤ hi then
          match nextBackMeta rest rel hi with
          | none => some (mk.lsn, v)
          | some (m, w) => if m > mk.lsn then some (m, w) else some (mk.lsn, v)
        else nextBackMeta rest rel hi := rfl

/-- Unfolding equation: a metadata scan skips data entries. -/
theorem nextBackMeta_cons_data (dk : DataKey) (v : Bytes) (rest : Store)
    (rel : RelishTag) (hi : Nat) :
    nextBackMeta ((StoreKey.Data dk, v) :: rest) rel hi
      = nextBackMeta rest rel hi := rfl

/-- A metadata scan returns the value of some stored row of the scanned
relish at the returned LSN. -/
theorem nextBackMeta_mem {s : Store} {rel : RelishTag} {hi : Nat} {m : Nat}
    {w : Bytes} (h : nextBackMeta s rel hi = some (m, w)) :
    (StoreKey.Metadata ⟨rel, m⟩, w) ∈ s ∧ m ≤ hi := by
  induction s with
  | nil => simp [nextBackMeta] at h
  | cons p rest ih =>
    obtain ⟨k, v⟩ := p
    cases k with
    | Data dk =>
      rw [nextBackMeta_cons_data] at h
      exact ⟨List.mem_cons_of_mem _ (ih h).1, (ih h).2⟩
    | Metadata mk =>
      obtain ⟨mr, ml⟩ := mk
      rw [nextBackMeta_cons_meta] at h
      split at h
      · rename_i hg
        obtain ⟨hrel, hle⟩ := hg
        dsimp only at hrel hle
        subst hrel
        split at h
        · cases h
          exact ⟨List.mem_cons_self _ _, hle⟩
        · rename_i m' w' hr
          split at h
          · cases h
            exact ⟨List.mem_cons_of_mem _ (ih hr).1, (ih hr).2⟩
          · cases h
            exact ⟨List.mem_cons_self _ _, hle⟩
      · exact ⟨List.mem_cons_of_mem _ (ih h).1, (ih h).2⟩

/-- After a metadata `put` at `(rel, lsn_d)` on a store whose rows for
`rel` all sit at or below `lsn_d`, a scan bounded by any `L ≥ lsn_d`
finds exactly the new row. -/
theorem nextBackMeta_putKV_top (s : Store) (rel : RelishTag) (lsn_d : Nat)
    (v : Bytes) (L : Nat)
    (hbound : ∀ p ∈ s, ∀ l : Nat,
      p.1 = StoreKey.Metadata ⟨rel, l⟩ → l ≤ lsn_d)
    (hL : lsn_d ≤ L) :
    nextBackMeta (putKV s (.Metadata ⟨rel, lsn_d⟩) v) rel L
      = some (lsn_d, v) := by
  simp only [putKV]
  rw [nextBackMeta_cons_meta]
  rw [if_pos ⟨rfl, hL⟩]
  cases hr : nextBackMeta
      (s.filter fun p => ¬(p.1 = .Metadata ⟨rel, lsn_d⟩)) rel L with
  | none => rfl
  | some mw =>
    obtain ⟨m, w⟩ := mw
    obtain ⟨hmem, _⟩ := nextBackMeta_mem hr
    have hmem' := List.of_mem_filter hmem
    have hmem'' := List.mem_of_mem_filter hmem
    have hle : m ≤ lsn_d := hbound _ hmem'' m rfl
    dsimp only
    have hng : ¬(m > lsn_d) := by omega
    rw [if_neg hng]

/-- Removing entries keyed `Metadata (rel, lsn_d)` does not change a
metadata scan bounded strictly below `lsn_d`. -/
theorem nextBackMeta_filter_high (s : Store) (rel : RelishTag)
    (lsn_d : Nat) (L : Nat) (hL : L < lsn_d) :
    nextBackMeta (s.filter fun p => ¬(p.1 = .Metadata ⟨rel, lsn_d⟩)) rel L
      = nextBackMeta s rel L := by
  induction s with
  | nil => rfl
  | cons p rest ih =>
    obtain ⟨k, v⟩ := p
    rw [List.filter_cons]
    cases k with
    | Data dk =>
      rw [if_pos (by simp)]
      rw [nextBackMeta_cons_data, nextBackMeta_cons_data, ih]
    | Metadata mk =>
      by_cases he : (StoreKey.Metadata mk : StoreKey) = .Metadata ⟨rel, lsn_d⟩
      · rw [if_neg (by simp [he])]
        rw [ih]
        cases he
        rw [nextBackMeta_cons_meta]
        rw [if_neg (by rintro ⟨-, hle⟩; dsimp only at hle; omega)]
      · rw [if_pos (by simp [he])]
        rw [nextBackMeta_cons_meta, nextBackMeta_cons_meta, ih]

/-- A metadata `put` at `(rel, lsn_d)` is invisible to scans bounded
strictly below `lsn_d`. -/
theorem nextBackMeta_putKV_high (s : Store) (rel : RelishTag) (lsn_d : Nat)
    (v : Bytes) (L : Nat) (hL : L < lsn_d) :
    nextBackMeta (putKV s (.Metadata ⟨rel, lsn_d⟩) v) rel L
      = nextBackMeta s rel L := by
  simp only [putKV]
  rw [nextBackMeta_cons_meta]
  rw [if_neg (by rintro ⟨-, hle⟩; dsimp only at hle; omega)]
  exact nextBackMeta_filter_high s rel lsn_d L hL

/-- When the first stored row at key `Metadata (rel, M)` holds `v` and
every row of `rel` sits at or below `M ≤ L`, the scan bounded by `L`
returns `(M, v)`. -/
theorem nextBackMeta_lookup_max (s : Store) (rel : RelishTag) (M : Nat)
    (v : Bytes) (L : Nat)
    (hlook : rowLookup s (.Metadata ⟨rel, M⟩) = some v)
    (hbound : ∀ p ∈ s, ∀ l : Nat, p.1 = StoreKey.Metadata ⟨rel, l⟩ → l ≤ M)
    (hL : M ≤ L) :
    nextBackMeta s rel L = some (M, v) := by
  induction s with
  | nil => simp [rowLookup] at hlook
  | cons p rest ih =>
    obtain ⟨k, w⟩ := p
    by_cases hk : k = StoreKey.Metadata ⟨rel, M⟩
    · subst hk
      have hw : w = v := by
        simp [rowLookup, List.find?] at hlook
        exact hlook
      subst hw
      rw [nextBackMeta_cons_meta]
      rw [if_pos ⟨rfl, hL⟩]
      cases hr : nextBackMeta rest rel L with
      | none => rfl
      | some mw =>
        obtain ⟨m, w'⟩ := mw
        obtain ⟨hmem, _⟩ := nextBackMeta_mem hr
        have hle : m ≤ M :=
          hbound _ (List.mem_cons_of_mem _ hmem) m rfl
        dsimp only
        have hng : ¬(m > M) := by omega
        rw [if_neg hng]
    · have hlook' : rowLookup rest (.Metadata ⟨rel, M⟩) = some v := by
        simp only [rowLookup, List.find?] at hlook ⊢
        rw [show (decide (k = StoreKey.Metadata ⟨rel, M⟩)) = false
          by simp [hk]] at hlook
        exact hlook
      have ihr := ih hlook'
        (fun q hq l hl => hbound q (List.mem_cons_of_mem _ hq) l hl)
      cases k with
      | Data dk => rw [nextBackMeta_cons_data]; exact ihr
      | Metadata mk =>
        obtain ⟨mr, ml⟩ := mk
        rw [nextBackMeta_cons_meta]
        by_cases hg : mr = rel ∧ ml ≤ L
        · rw [if_pos hg]
          obtain ⟨hrel, hle⟩ := hg
          subst hrel
          have hml : ml ≤ M :=
            hbound _ (List.mem_cons_self _ _) ml rfl
          have hne : ¬(ml = M) := by
            intro he
            exact hk (by rw [he])
          rw [ihr]
          dsimp only
          rw [if_pos (by omega)]
        · rw [if_neg hg]
          exact ihr

/-- An erased cache entry is gone. -/
theorem cacheFind_erase (c : MetaCache) (rel : RelishTag) :
    cacheFind (eraseCache c rel) rel = none := by
  induction c with
  | nil => rfl
  | cons p rest ih =>
    obtain ⟨r, snap⟩ := p
    simp only [eraseCache, List.filter_cons] at ih ⊢
    by_cases he : r = rel
    · rw [if_neg (by simp [he])]
      exact ih
    · rw [if_pos (by simp [he])]
      simp only [cacheFind, List.find?] at ih ⊢
      rw [show (decide (r = rel)) = false by simp [he]]
      exact ih

/-- The range-scan fallback of `get_relish_size` as a standalone
function (the `let scan` of the source, named for the proofs). -/
def metaScanResult (s : Store) (rel : RelishTag) (lsn : Nat) :
    Except String (Option Nat) :=
  match nextBackMeta s rel lsn with
  | none => .ok none
  | some (_, v) =>
    match MetadataValue.des v with
    | none => .error "deserialization failed"
    | some mv => .ok mv.size

/-- `get_relish_size` on a blocky relish: cache fast path, else scan. -/
theorem get_relish_size_eq (tl : BTimeline) (rel : RelishTag) (lsn : Nat)
    (hb : rel.is_blocky = true) :
    get_relish_size tl rel lsn
      = match tl.meta with
        | some hash =>
          match cacheFind hash rel with
          | some snap =>
            if snap.lsn ≤ lsn then .ok (some snap.size)
            else metaScanResult tl.data rel lsn
          | none => metaScanResult tl.data rel lsn
        | none => metaScanResult tl.data rel lsn := by
  unfold get_relish_size metaScanResult
  rw [if_neg (by simp [hb])]

/-- Scan equality transfers to the scan fallback. -/
theorem metaScanResult_congr (s1 s2 : Store) (rel : RelishTag) (lsn : Nat)
    (h : nextBackMeta s1 rel lsn = nextBackMeta s2 rel lsn) :
    metaScanResult s1 rel lsn = metaScanResult s2 rel lsn := by
  unfold metaScanResult
  rw [h]

/-- C6.  Tombstone semantics, for a timeline whose snapshot cache is
loaded and coherent for the dropped relish (as the writer maintains it)
and whose metadata rows for that relish all sit at or below the drop
LSN (as the LSN-ordered single writer produces): after
`drop_relish(e, lsn_d)`, for every `L ≥ lsn_d` `get_relish_size(e, L)`
returns `none` and `get_rel_exists(e, L)` returns `false`, while for
every `L < lsn_d` both functions return exactly what they returned
before the drop. -/
theorem c6_tombstone (tl : BTimeline) (rel : RelishTag) (lsn_d : Nat)
    (cache : MetaCache)
    (hblocky : rel.is_blocky = true)
    (hmeta : tl.meta = some cache)
    (hbound : ∀ p ∈ tl.data, ∀ l : Nat,
      p.1 = StoreKey.Metadata ⟨rel, l⟩ → l ≤ lsn_d)
    (hcoh : ∀ snap : MetadataSnapshot, cacheFind cache rel = some snap →
      snap.size < 2 ^ 32
        ∧ rowLookup tl.data (.Metadata ⟨rel, snap.lsn⟩)
          = some (MetadataValue.ser ⟨some snap.size⟩)
        ∧ ∀ p ∈ tl.data, ∀ l : Nat,
            p.1 = StoreKey.Metadata ⟨rel, l⟩ → l ≤ snap.lsn) :
    (drop_relish tl rel lsn_d).1 = .ok ()
      ∧ (∀ L, lsn_d ≤ L →
          get_relish_size (drop_relish tl rel lsn_d).2 rel L = .ok none
          ∧ get_rel_exists (drop_relish tl rel lsn_d).2 rel L = .ok false)
      ∧ (∀ L, L < lsn_d →
          get_relish_size (drop_relish tl rel lsn_d).2 rel L
            = get_relish_size tl rel L
          ∧ get_rel_exists (drop_relish tl rel lsn_d).2 rel L
            = get_rel_exists tl rel L) := by
  have hdrop : drop_relish tl rel lsn_d
      = (.ok (), { tl with data := putKV tl.data (.Metadata ⟨rel, lsn_d⟩) (MetadataValue.ser ⟨none⟩), meta := some (eraseCache cache rel), diskConsistentLsn := lsn_d }) := by
    simp only [drop_relish, load_metadata_cache, hmeta]
  refine ⟨by rw [hdrop], ?_, ?_⟩
  · intro L hL
    have hsize : get_relish_size (drop_relish tl rel lsn_d).2 rel L
        = .ok none := by
      rw [hdrop]
      rw [get_relish_size_eq _ _ _ hblocky]
      dsimp only
      rw [cacheFind_erase]
      unfold metaScanResult
      dsimp only
      rw [nextBackMeta_putKV_top tl.data rel lsn_d _ L hbound hL]
      rfl
    refine ⟨hsize, ?_⟩
    unfold get_rel_exists
    rw [hsize]
    rfl
  · intro L hL
    have hscan : nextBackMeta
        (putKV tl.data (.Metadata ⟨rel, lsn_d⟩) (MetadataValue.ser ⟨none⟩))
          rel L
        = nextBackMeta tl.data rel L :=
      nextBackMeta_putKV_high tl.data rel lsn_d _ L hL
    have hsize : get_relish_size (drop_relish tl rel lsn_d).2 rel L
        = get_relish_size tl rel L := by
      rw [hdrop]
      rw [get_relish_size_eq _ _ _ hblocky, get_relish_size_eq _ _ _ hblocky]
      dsimp only
      rw [cacheFind_erase, hmeta]
      dsimp only
      rw [metaScanResult_congr _ tl.data rel L hscan]
      cases hcf : cacheFind cache rel with
      | none => rfl
      | some snap =>
        dsimp only
        obtain ⟨hsz, hlook, hbnd⟩ := hcoh snap hcf
        by_cases hsl : snap.lsn ≤ L
        · rw [if_pos hsl]
          unfold metaScanResult
          rw [nextBackMeta_lookup_max tl.data rel snap.lsn _ L hlook hbnd hsl]
          dsimp only
          rw [desMV_ser_some snap.size hsz]
        · rw [if_neg hsl]
    exact ⟨hsize, by unfold get_rel_exists; rw [hsize]⟩

/-- Concrete relation used by the C6 witness. -/
def relC6 : RelishTag := .Relation ⟨6, 6, 6, 0⟩

/-- C6 witness timeline: one size row `Some(1)` at LSN 16, coherent
snapshot cache. -/
def tlC6 : BTimeline :=
  { create_empty_timeline with
      data := [(.Metadata ⟨relC6, 16⟩, MetadataValue.ser ⟨some 1⟩)]
      meta := some [(relC6, ⟨1, 16⟩)]
      lastRecordLsn := 16
      diskConsistentLsn := 16 }

/-- Witness for C6 at a concrete input: drop at LSN 32, query at 40
(sees the tombstone) and at 8 (unchanged). -/
theorem c6_tombstone_witness :
    RelishTag.is_blocky relC6 = true
      ∧ tlC6.meta = some [(relC6, ⟨1, 16⟩)]
      ∧ get_relish_size (drop_relish tlC6 relC6 32).2 relC6 40 = .ok none
      ∧ get_rel_exists (drop_relish tlC6 relC6 32).2 relC6 40 = .ok false
      ∧ get_relish_size (drop_relish tlC6 relC6 32).2 relC6 8
        = get_relish_size tlC6 relC6 8 := by
  have hbound16 : ∀ p ∈ tlC6.data, ∀ l : Nat,
      p.1 = StoreKey.Metadata ⟨relC6, l⟩ → l ≤ 16 := by
    intro p hp l hl
    rw [show tlC6.data
      = [(.Metadata ⟨relC6, 16⟩, MetadataValue.ser ⟨some 1⟩)] from rfl] at hp
    rw [List.mem_singleton] at hp
    subst hp
    simp only [StoreKey.Metadata.injEq, MetadataKey.mk.injEq] at hl
    omega
  have hbound : ∀ p ∈ tlC6.data, ∀ l : Nat,
      p.1 = StoreKey.Metadata ⟨relC6, l⟩ → l ≤ 32 := by
    intro p hp l hl
    have := hbound16 p hp l hl
    omega
  have hcoh : ∀ snap : MetadataSnapshot,
      cacheFind [(relC6, ⟨1, 16⟩)] relC6 = some snap →
      snap.size < 2 ^ 32
        ∧ rowLookup tlC6.data (.Metadata ⟨relC6, snap.lsn⟩)
          = some (MetadataValue.ser ⟨some snap.size⟩)
        ∧ ∀ p ∈ tlC6.data, ∀ l : Nat,
            p.1 = StoreKey.Metadata ⟨relC6, l⟩ → l ≤ snap.lsn := by
    intro snap h
    have he : (some (⟨1, 16⟩ : MetadataSnapshot)) = some snap := h
    injection he with he'
    subst he'
    exact ⟨by decide, rfl, hbound16⟩
  have hmain := c6_tombstone tlC6 relC6 32 [(relC6, ⟨1, 16⟩)] rfl rfl
    hbound hcoh
  exact ⟨rfl, rfl, (hmain.2.1 40 (by decide)).1, (hmain.2.1 40 (by decide)).2,
    (hmain.2.2 8 (by decide)).1⟩

/-! ### CRC-32C detects every single-byte change

The reflected bit step is injective on 32-bit states because the
polynomial has its top bit set, so the parity of the input state is
visible in bit 31 of the output; injectivity lifts through the byte
steps and the message fold, and a one-byte difference in equal-length
messages therefore yields different checksums. -/

/-- The polynomial's top bit. -/
theorem crcPoly_testBit : Nat.testBit crcPoly 31 = true := by decide

/-- A bit step keeps the register below `2^32`. -/
theorem crcStep1_lt {c : Nat} (h : c < 2 ^ 32) : crcStep1 c < 2 ^ 32 := by
  unfold crcStep1
  split
  · exact Nat.xor_lt_two_pow (by omega) (by decide)
  · omega

/-- A bit step is injective on 32-bit registers. -/
theorem crcStep1_inj {a b : Nat} (ha : a < 2 ^ 32) (hb : b < 2 ^ 32)
    (h : crcStep1 a = crcStep1 b) : a = b := by
  unfold crcStep1 at h
  split at h <;> split at h
  · rename_i h1 h2
    have := Nat.xor_left_inj.mp h
    omega
  · rename_i h1 h2
    exfalso
    have hbit : (a / 2 ^^^ crcPoly).testBit 31 = true := by
      rw [Nat.testBit_xor]
      rw [Nat.testBit_eq_false_of_lt (show a / 2 < 2 ^ 31 by omega)]
      rw [crcPoly_testBit]
      rfl
    rw [h] at hbit
    rw [Nat.testBit_eq_false_of_lt (show b / 2 < 2 ^ 31 by omega)] at hbit
    cases hbit
  · rename_i h1 h2
    exfalso
    have hbit : (b / 2 ^^^ crcPoly).testBit 31 = true := by
      rw [Nat.testBit_xor]
      rw [Nat.testBit_eq_false_of_lt (show b / 2 < 2 ^ 31 by omega)]
      rw [crcPoly_testBit]
      rfl
    rw [← h] at hbit
    rw [Nat.testBit_eq_false_of_lt (show a / 2 < 2 ^ 31 by omega)] at hbit
    cases hbit
  · rename_i h1 h2
    omega

/-- Iterated bit steps keep the register below `2^32`. -/
theorem crcStepN_lt : ∀ (n : Nat) {c : Nat}, c < 2 ^ 32 →
    crcStep1^[n] c < 2 ^ 32 := by
  intro n
  induction n with
  | zero => intro c h; simpa using h
  | succ k ih =>
    intro c h
    rw [Function.iterate_succ_apply]
    exact ih (crcStep1_lt h)

/-- Iterated bit steps are injective on 32-bit registers. -/
theorem crcStepN_inj : ∀ (n : Nat) {a b : Nat}, a < 2 ^ 32 → b < 2 ^ 32 →
    crcStep1^[n] a = crcStep1^[n] b → a = b := by
  intro n
  induction n with
  | zero => intro a b _ _ h; simpa using h
  | succ k ih =>
    intro a b ha hb h
    rw [Function.iterate_succ_apply, Function.iterate_succ_apply] at h
    exact crcStep1_inj ha hb (ih (crcStep1_lt ha) (crcStep1_lt hb) h)

/-- A byte step keeps the register below `2^32`. -/
theorem crcByte_lt {c b : Nat} (hc : c < 2 ^ 32) (hb : b < 256) :
    crcByte c b < 2 ^ 32 :=
  crcStepN_lt 8 (Nat.xor_lt_two_pow hc (by omega))

/-- A byte step is injective in the register. -/
theorem crcByte_inj_state {a b x : Nat} (ha : a < 2 ^ 32) (hb : b < 2 ^ 32)
    (hx : x < 256) (h : crcByte a x = crcByte b x) : a = b := by
  unfold crcByte at h
  have h' := crcStepN_inj 8 (Nat.xor_lt_two_pow ha (by omega))
    (Nat.xor_lt_two_pow hb (by omega)) h
  exact Nat.xor_left_injective h'

/-- The message fold keeps the register below `2^32`. -/
theorem crcFold_lt : ∀ (l : Bytes) (a : Nat), a < 2 ^ 32 →
    (∀ x ∈ l, x < 256) → List.foldl crcByte a l < 2 ^ 32 := by
  intro l
  induction l with
  | nil => intro a ha _; simpa using ha
  | cons y t ih =>
    intro a ha hl
    rw [List.foldl_cons]
    exact ih _ (crcByte_lt ha (hl y (List.mem_cons_self _ _)))
      (fun x hx => hl x (List.mem_cons_of_mem _ hx))

/-- The message fold is injective in the initial register. -/
theorem crcFold_inj : ∀ (l : Bytes) {a b : Nat}, a < 2 ^ 32 → b < 2 ^ 32 →
    (∀ x ∈ l, x < 256) →
    List.foldl crcByte a l = List.foldl crcByte b l → a = b := by
  intro l
  induction l with
  | nil => intro a b _ _ _ h; simpa using h
  | cons y t ih =>
    intro a b ha hb hl h
    rw [List.foldl_cons, List.foldl_cons] at h
    have hy : y < 256 := hl y (List.mem_cons_self _ _)
    exact crcByte_inj_state ha hb hy
      (ih (crcByte_lt ha hy) (crcByte_lt hb hy)
        (fun x hx => hl x (List.mem_cons_of_mem _ hx)) h)

/-- The checksum is a 32-bit value. -/
theorem crc32c_lt (l : Bytes) (hl : ∀ x ∈ l, x < 256) :
    crc32c l < 2 ^ 32 := by
  unfold crc32c
  exact Nat.xor_lt_two_pow (crcFold_lt l _ (by norm_num) hl) (by norm_num)

/-- Two equal-length messages differing in exactly one byte have
different CRC-32C checksums. -/
theorem crc32c_ne_of_byte_change (pre suf : Bytes) (x y : Nat)
    (hx : x < 256) (hy : y < 256)
    (hpre : ∀ z ∈ pre, z < 256) (hsuf : ∀ z ∈ suf, z < 256)
    (hne : ¬(x = y)) :
    ¬(crc32c (pre ++ x :: suf) = crc32c (pre ++ y :: suf)) := by
  intro h
  unfold crc32c at h
  have h' := Nat.xor_left_inj.mp h
  rw [List.foldl_append, List.foldl_append] at h'
  simp only [List.foldl_cons] at h'
  have hslt : List.foldl crcByte 0xFFFFFFFF pre < 2 ^ 32 :=
    crcFold_lt pre _ (by norm_num) hpre
  have h'' := crcFold_inj suf (crcByte_lt hslt hx) (crcByte_lt hslt hy)
    hsuf h'
  unfold crcByte at h''
  have h3 := crcStepN_inj 8 (Nat.xor_lt_two_pow hslt (by omega))
    (Nat.xor_lt_two_pow hslt (by omega)) h''
  exact hne (Nat.xor_right_injective h3)

/-! ### Metadata file lemmas -/

/-- The serialized metadata always fits the 508-byte payload. -/
theorem serTM_length_le (m : TimelineMetadata) :
    (TimelineMetadata.ser m).length ≤ 42 := by
  unfold TimelineMetadata.ser
  cases m.prev_record_lsn <;> cases m.ancestor_timeline <;>
    simp [serOpt, u64be, u128be]

/-- Every byte of a big-endian `u64` is below 256. -/
theorem u64be_bytes_lt (n : Nat) : ∀ x ∈ u64be n, x < 256 := by
  intro x hx
  simp only [u64be, List.mem_cons, List.not_mem_nil, or_false] at hx
  rcases hx with h | h | h | h | h | h | h | h <;> subst h <;> omega

/-- Every byte of a big-endian `u128` is below 256. -/
theorem u128be_bytes_lt (n : Nat) : ∀ x ∈ u128be n, x < 256 := by
  intro x hx
  rcases List.mem_append.mp hx with h | h
  · exact u64be_bytes_lt _ x h
  · exact u64be_bytes_lt _ x h

/-- Every byte of a little-endian `u32` is below 256. -/
theorem u32le_bytes_lt (n : Nat) : ∀ x ∈ u32le n, x < 256 := by
  intro x hx
  simp only [u32le, List.mem_cons, List.not_mem_nil, or_false] at hx
  rcases hx with h | h | h | h <;> subst h <;> omega

/-- Every byte of the serialized metadata is below 256. -/
theorem serTM_bytes_lt (m : TimelineMetadata) :
    ∀ x ∈ TimelineMetadata.ser m, x < 256 := by
  intro x hx
  unfold TimelineMetadata.ser at hx
  rcases List.mem_append.mp hx with hx | hx
  · rcases List.mem_append.mp hx with hx | hx
    · rcases List.mem_append.mp hx with hx | hx
      · exact u64be_bytes_lt _ x hx
      · cases hp : m.prev_record_lsn with
        | none => rw [hp] at hx; simp [serOpt] at hx; omega
        | some p =>
          rw [hp] at hx
          simp only [serOpt, List.mem_cons] at hx
          rcases hx with h | h
          · omega
          · exact u64be_bytes_lt _ x h
    · cases ha : m.ancestor_timeline with
      | none => rw [ha] at hx; simp [serOpt] at hx; omega
      | some a =>
        rw [ha] at hx
        simp only [serOpt, List.mem_cons] at hx
        rcases hx with h | h
        · omega
        · exact u128be_bytes_lt _ x h
  · exact u64be_bytes_lt _ x hx

/-- The little-endian `u32` encoding is injective on 32-bit values. -/
theorem u32le_inj {a b : Nat} (ha : a < 2 ^ 32) (hb : b < 2 ^ 32)
    (h : u32le a = u32le b) : a = b := by
  simp only [u32le, List.cons.injEq, and_true] at h
  omega

/-- The zero-padded 508-byte payload written by `save_metadata`. -/
def savePayload (m : TimelineMetadata) : Bytes :=
  TimelineMetadata.ser m
    ++ List.replicate (508 - (TimelineMetadata.ser m).length) 0

/-- The payload is exactly 508 bytes. -/
theorem savePayload_length (m : TimelineMetadata) :
    (savePayload m).length = 508 := by
  have h := serTM_length_le m
  simp only [savePayload, List.length_append, List.length_replicate]
  omega

/-- Every byte of the payload is below 256. -/
theorem savePayload_bytes_lt (m : TimelineMetadata) :
    ∀ x ∈ savePayload m, x < 256 := by
  intro x hx
  rcases List.mem_append.mp hx with h | h
  · exact serTM_bytes_lt m x h
  · rw [List.eq_of_mem_replicate h]
    omega

/-- `save_metadata` produces the payload followed by its checksum. -/
theorem save_metadata_eq (m : TimelineMetadata) :
    save_metadata m = savePayload m ++ u32le (crc32c (savePayload m)) := by
  simp only [save_metadata]
  have hle : (TimelineMetadata.ser m).length ≤ 42 := serTM_length_le m
  have htake : (TimelineMetadata.ser m
        ++ List.replicate (METADATA_MAX_SAFE_SIZE
          - (TimelineMetadata.ser m).length) 0).take METADATA_MAX_DATA_SIZE
      = savePayload m := by
    rw [List.take_append_eq_append_take]
    rw [List.take_of_length_le (by simp [METADATA_MAX_DATA_SIZE,
      METADATA_MAX_SAFE_SIZE, METADATA_CHECKSUM_SIZE]; omega)]
    rw [List.take_replicate]
    unfold savePayload
    congr 1
    congr 1
    simp only [METADATA_MAX_DATA_SIZE, METADATA_MAX_SAFE_SIZE,
      METADATA_CHECKSUM_SIZE]
    omega
  rw [htake]

/-- The saved file is exactly 512 bytes. -/
theorem save_metadata_length (m : TimelineMetadata) :
    (save_metadata m).length = 512 := by
  rw [save_metadata_eq]
  simp [savePayload_length, u32le]

/-- Unfolding equation for `readOpt` on a `none` tag. -/
theorem readOpt_tag_none (f : Bytes → Option (Nat × Bytes)) (r : Bytes) :
    readOpt f (0 :: r) = some (none, r) := rfl

/-- Unfolding equation for `readOpt` on a `some` tag. -/
theorem readOpt_tag_some (f : Bytes → Option (Nat × Bytes)) (r : Bytes) :
    readOpt f (1 :: r)
      = match f r with
        | some (x, rest) => some (some x, rest)
        | none => none := rfl

/-- `des_prefix` inverts `ser` on any trailing bytes, for in-range
field values. -/
theorem desPre_serTM (m : TimelineMetadata) (rest : Bytes)
    (h1 : m.disk_consistent_lsn < 2 ^ 64)
    (h2 : ∀ p, m.prev_record_lsn = some p → p < 2 ^ 64)
    (h3 : ∀ a, m.ancestor_timeline = some a → a < 2 ^ 128)
    (h4 : m.ancestor_lsn < 2 ^ 64) :
    TimelineMetadata.desPre (TimelineMetadata.ser m ++ rest) = some m := by
  obtain ⟨d, p, a, al⟩ := m
  simp only [TimelineMetadata.ser]
  rw [List.append_assoc, List.append_assoc, List.append_assoc]
  unfold TimelineMetadata.desPre
  rw [readU64_u64be d _ h1]
  dsimp only
  cases p with
  | none =>
    rw [show serOpt u64be none = [0] from rfl, List.singleton_append,
      readOpt_tag_none]
    dsimp only
    cases a with
    | none =>
      rw [show serOpt u128be none = [0] from rfl, List.singleton_append,
        readOpt_tag_none]
      dsimp only
      rw [readU64_u64be al _ h4]
    | some av =>
      rw [show serOpt u128be (some av) = 1 :: u128be av from rfl,
        List.cons_append, readOpt_tag_some]
      rw [readU128_u128be av _ (h3 av rfl)]
      dsimp only
      rw [readU64_u64be al _ h4]
  | some pv =>
    rw [show serOpt u64be (some pv) = 1 :: u64be pv from rfl,
      List.cons_append, readOpt_tag_some]
    rw [readU64_u64be pv _ (h2 pv rfl)]
    dsimp only
    cases a with
    | none =>
      rw [show serOpt u128be none = [0] from rfl, List.singleton_append,
        readOpt_tag_none]
      dsimp only
      rw [readU64_u64be al _ h4]
    | some av =>
      rw [show serOpt u128be (some av) = 1 :: u128be av from rfl,
        List.cons_append, readOpt_tag_some]
      rw [readU128_u128be av _ (h3 av rfl)]
      dsimp only
      rw [readU64_u64be al _ h4]

/-- Setting an index to its own value is the identity. -/
theorem list_set_getElem_id : ∀ (l : Bytes) (i : Nat) (h : i < l.length),
    l.set i (l[i]) = l
  | _ :: _, 0, _ => rfl
  | a :: t, i + 1, h =>
    congrArg (List.cons a) (list_set_getElem_id t i (by simpa using h))

/-- Bytes stay below 256 after setting one below-256 byte. -/
theorem bytes_lt_set (l : Bytes) (i b : Nat) (hb : b < 256)
    (hl : ∀ x ∈ l, x < 256) : ∀ x ∈ l.set i b, x < 256 := by
  intro x hx
  rcases List.mem_or_eq_of_mem_set hx with h | h
  · exact hl x h
  · omega

set_option maxRecDepth 4096 in
/-- C7.  The metadata file round-trips and detects corruption:
`save_metadata` writes exactly 512 bytes — the serialized
`TimelineMetadata` zero-padded to 508 bytes (`savePayload`) followed by
the 4-byte little-endian CRC32C of those 508 bytes; `load_metadata` of
that file returns the saved metadata (for in-range, aligned field
values); and `load_metadata` fails on any file that is not exactly 512
bytes, or in which any single byte of the payload or the checksum has
been altered. -/
theorem c7_metadata_roundtrip_and_corruption (m : TimelineMetadata)
    (hal : Lsn.is_aligned m.disk_consistent_lsn = true)
    (h1 : m.disk_consistent_lsn < 2 ^ 64)
    (h2 : ∀ p, m.prev_record_lsn = some p → p < 2 ^ 64)
    (h3 : ∀ a, m.ancestor_timeline = some a → a < 2 ^ 128)
    (h4 : m.ancestor_lsn < 2 ^ 64) :
    (save_metadata m).length = 512
      ∧ save_metadata m = savePayload m ++ u32le (crc32c (savePayload m))
      ∧ load_metadata (save_metadata m) = some m
      ∧ (∀ i b : Nat, i < 512 → b < 256 →
          ¬(b = (save_metadata m).getD i 0) →
          load_metadata ((save_metadata m).set i b) = none)
      ∧ (∀ f : Bytes, ¬(f.length = 512) → load_metadata f = none) := by
  have hPlen : (savePayload m).length = 508 := savePayload_length m
  have hPlt : ∀ x ∈ savePayload m, x < 256 := savePayload_bytes_lt m
  have hClen : (u32le (crc32c (savePayload m))).length = 4 := by simp [u32le]
  have hFlen : (save_metadata m).length = 512 := save_metadata_length m
  refine ⟨hFlen, save_metadata_eq m, ?_, ?_, ?_⟩
  · -- roundtrip
    rw [save_metadata_eq]
    simp only [load_metadata]
    rw [if_pos (by simp [u32le, hPlen, METADATA_MAX_SAFE_SIZE])]
    have htake : (savePayload m
          ++ u32le (crc32c (savePayload m))).take METADATA_MAX_DATA_SIZE
        = savePayload m := by
      rw [show (METADATA_MAX_DATA_SIZE : Nat) = (savePayload m).length
        from by rw [hPlen]; rfl]
      simp
    have hdrop : (savePayload m
          ++ u32le (crc32c (savePayload m))).drop METADATA_MAX_DATA_SIZE
        = u32le (crc32c (savePayload m)) := by
      rw [show (METADATA_MAX_DATA_SIZE : Nat) = (savePayload m).length
        from by rw [hPlen]; rfl]
      simp
    rw [htake, hdrop, if_pos rfl]
    unfold savePayload
    rw [desPre_serTM m _ h1 h2 h3 h4]
    dsimp only
    rw [if_pos hal]
  · -- single-byte corruption
    intro i b hi hb hne
    rw [save_metadata_eq] at hne ⊢
    by_cases hcase : i < 508
    · -- payload byte
      have hiP : i < (savePayload m).length := by omega
      have horig : (savePayload m ++ u32le (crc32c (savePayload m))).getD i 0
          = (savePayload m)[i] := by
        rw [List.getD_eq_getElem?_getD]
        rw [List.getElem?_append_left hiP]
        rw [List.getElem?_eq_getElem hiP]
        rfl
      rw [horig] at hne
      rw [List.set_append_left _ _ hiP]
      have hset : (savePayload m).set i b
          = (savePayload m).take i ++ b :: (savePayload m).drop (i + 1) :=
        List.set_eq_take_cons_drop b hiP
      have hsplit : savePayload m
          = (savePayload m).take i
            ++ ((savePayload m)[i]) :: (savePayload m).drop (i + 1) := by
        conv_lhs => rw [← list_set_getElem_id (savePayload m) i hiP]
        exact List.set_eq_take_cons_drop _ hiP
      have hpre : ∀ z ∈ (savePayload m).take i, z < 256 :=
        fun z hz => hPlt z (List.take_subset _ _ hz)
      have hsuf : ∀ z ∈ (savePayload m).drop (i + 1), z < 256 :=
        fun z hz => hPlt z (List.drop_subset _ _ hz)
      have hxlt : ((savePayload m)[i]) < 256 :=
        hPlt _ (List.getElem_mem hiP)
      have hcrcne := crc32c_ne_of_byte_change ((savePayload m).take i)
        ((savePayload m).drop (i + 1)) b ((savePayload m)[i])
        hb hxlt hpre hsuf hne
      rw [← hset, ← hsplit] at hcrcne
      simp only [load_metadata]
      rw [if_pos (by simp [u32le, hPlen, METADATA_MAX_SAFE_SIZE])]
      have hPlen' : ((savePayload m).set i b).length = 508 := by
        simpa using hPlen
      have htake : ((savePayload m).set i b
            ++ u32le (crc32c (savePayload m))).take METADATA_MAX_DATA_SIZE
          = (savePayload m).set i b := by
        rw [show (METADATA_MAX_DATA_SIZE : Nat)
          = ((savePayload m).set i b).length from by rw [hPlen']; rfl]
        simp
      have hdrop : ((savePayload m).set i b
            ++ u32le (crc32c (savePayload m))).drop METADATA_MAX_DATA_SIZE
          = u32le (crc32c (savePayload m)) := by
        rw [show (METADATA_MAX_DATA_SIZE : Nat)
          = ((savePayload m).set i b).length from by rw [hPlen']; rfl]
        simp
      rw [htake, hdrop]
      rw [if_neg]
      intro hcks
      have hlt1 : crc32c ((savePayload m).set i b) < 2 ^ 32 :=
        crc32c_lt _ (bytes_lt_set _ i b hb hPlt)
      have hlt2 : crc32c (savePayload m) < 2 ^ 32 := crc32c_lt _ hPlt
      exact hcrcne (u32le_inj hlt1 hlt2 hcks)
    · -- checksum byte
      have hiC : i - 508 < (u32le (crc32c (savePayload m))).length := by
        rw [hClen]; omega
      have h508 : (savePayload m).length ≤ i := by omega
      have horig : (savePayload m ++ u32le (crc32c (savePayload m))).getD i 0
          = (u32le (crc32c (savePayload m)))[i - 508] := by
        rw [List.getD_eq_getElem?_getD]
        rw [List.getElem?_append_right h508]
        rw [hPlen]
        rw [List.getElem?_eq_getElem hiC]
        rfl
      rw [horig] at hne
      rw [List.set_append_right _ _ h508, hPlen]
      simp only [load_metadata]
      rw [if_pos (by simp [u32le, hPlen, METADATA_MAX_SAFE_SIZE])]
      have htake : (savePayload m
            ++ (u32le (crc32c (savePayload m))).set (i - 508) b).take
              METADATA_MAX_DATA_SIZE
          = savePayload m := by
        rw [show (METADATA_MAX_DATA_SIZE : Nat) = (savePayload m).length
          from by rw [hPlen]; rfl]
        simp
      have hdrop : (savePayload m
            ++ (u32le (crc32c (savePayload m))).set (i - 508) b).drop
              METADATA_MAX_DATA_SIZE
          = (u32le (crc32c (savePayload m))).set (i - 508) b := by
        rw [show (METADATA_MAX_DATA_SIZE : Nat) = (savePayload m).length
          from by rw [hPlen]; rfl]
        simp
      rw [htake, hdrop]
      rw [if_neg]
      intro hcks
      have hlen' : i - 508
          < ((u32le (crc32c (savePayload m))).set (i - 508) b).length := by
        simpa using hiC
      have h' := congrArg (fun l : Bytes => l[i - 508]?) hcks
      simp only at h'
      rw [List.getElem?_eq_getElem hiC, List.getElem?_eq_getElem hlen'] at h'
      rw [List.getElem_set_self hlen'] at h'
      injection h' with h''
      exact hne h''.symm
  · -- wrong size
    intro f hf
    simp only [load_metadata]
    rw [if_neg (by simpa [METADATA_MAX_SAFE_SIZE] using hf)]

/-- Concrete metadata value for the C7 witness. -/
def mC7 : TimelineMetadata := ⟨16, some 8, some 3, 16⟩

/-- Witness for C7 at a concrete input: save, reload, and corrupt the
first payload byte. -/
theorem c7_metadata_roundtrip_and_corruption_witness :
    Lsn.is_aligned mC7.disk_consistent_lsn = true
      ∧ load_metadata (save_metadata mC7) = some mC7
      ∧ load_metadata ((save_metadata mC7).set 0 7) = none
      ∧ load_metadata [0, 1, 2] = none := by
  have h := c7_metadata_roundtrip_and_corruption mC7 rfl (by decide)
    (by intro p hp; injection hp with h'; omega)
    (by intro a ha; injection ha with h'; omega)
    (by decide)
  refine ⟨rfl, h.2.2.1, ?_, h.2.2.2.2 [0, 1, 2] (by decide)⟩
  exact h.2.2.2.1 0 7 (by decide) (by decide) (by decide)
